import Mathlib

/-!
Verification development for the Flask To-Do List API + chat translator
(`src/app.py`).  The HTTP surface is embedded shallowly: each endpoint body
becomes a pure Lean function over an explicit store state; the Python regex
cascade of the chat endpoint is translated into character-list matchers that
reproduce the engine's leftmost/greedy/lazy behaviour on the patterns the
source uses.

Modelling conventions (each noted again at its definition):
- `uuid4()` results and undo tokens are drawn from counters in the state;
  their only relevant property in the source is freshness/uniqueness.
- timestamps (`utcnow()` strings and `datetime.now().timestamp()` seconds)
  are naturals supplied by the caller; RFC3339 UTC strings compare
  lexicographically exactly as their instants compare, so sorting by the
  `created_at` string is modelled as sorting by this natural.
- Python's `list.sort` / `sorted` are stable; `reverse=True` keeps equal
  elements in their original order.  `stableSort` below has exactly these
  properties.
-/

namespace TaskApp

abbrev Chars := List Char

/-- Python `\s` and `str.isspace`, restricted to the characters theorems
here range over.  Python's class is Unicode-aware: on ASCII it is
`[ \t\n\v\f\r]` plus the file/group/record/unit separators `\x1c`–`\x1f`,
and beyond ASCII it holds of `\x85` and the Unicode space characters.
Those extra characters are excluded from every quantified statement by the
`asciiEmbeddable` hypothesis below (claims over arbitrary text carry it;
the fixed inputs of C5–C7 are plain ASCII), so this ASCII core is exact on
the covered domain. -/
def isPyWs (c : Char) : Bool :=
  c = ' ' || c = '\t' || c = '\n' || c = '\r' || c = Char.ofNat 11 || c = Char.ofNat 12

/-- Python regex `\w`, restricted likewise: on ASCII it is exactly
`[A-Za-z0-9_]`; the Unicode word characters outside ASCII are excluded from
the quantified statements by `asciiEmbeddable`. -/
def isWordChar (c : Char) : Bool :=
  c.isAlpha || c.isDigit || c = '_'

/-- Python `str.lower` / case folding under `re.I`, restricted likewise:
`Char.toLower` agrees with Python on ASCII and is the identity elsewhere,
while Python folds the full Unicode tables (`'Ä'.lower() = 'ä'`); the
`asciiEmbeddable` hypothesis keeps quantified statements on the domain
where the two coincide. -/
def lowers (s : Chars) : Chars := s.map Char.toLower

/-- The character domain on which the embeddings above are exact: ASCII
without `\x1c`–`\x1f` (which Python counts as whitespace but `isPyWs` does
not).  Theorems that quantify over arbitrary message or store text restrict
it with this predicate; on it, `lowers`, `isWordChar`, `isPyWs` and the
strip/boundary functions built from them behave exactly like Python's
Unicode-aware versions. -/
def asciiEmbeddable (c : Char) : Bool :=
  c.toNat < 128 && !(28 ≤ c.toNat && c.toNat ≤ 31)

/-- Python `str.strip()` (left side). -/
def trimL (s : Chars) : Chars := s.dropWhile isPyWs

/-- Python `str.strip()` (right side). -/
def trimR (s : Chars) : Chars := (s.reverse.dropWhile isPyWs).reverse

/-- Python `str.strip()`. -/
def trimWs (s : Chars) : Chars := trimR (trimL s)

/-- Python `str.strip(chars)` for an explicit character set. -/
def stripSet (cs : Chars) (s : Chars) : Chars :=
  ((s.dropWhile (cs.contains ·)).reverse.dropWhile (cs.contains ·)).reverse

/-- Case-insensitive "starts with" (regex literal under `re.I`). -/
def ciStarts (pat : Chars) (s : Chars) : Bool :=
  (lowers pat).isPrefixOf (lowers s)

/-- Python `needle in hay` substring test. -/
def containsSub (nd : Chars) : Chars → Bool
  | [] => nd.isEmpty
  | c :: cs => nd.isPrefixOf (c :: cs) || containsSub nd cs

/-- Python `str.split(',')`. -/
def splitOnComma : Chars → List Chars
  | [] => [[]]
  | c :: cs =>
    if c = ',' then [] :: splitOnComma cs
    else
      match splitOnComma cs with
      | [] => [[c]]
      | p :: ps => (c :: p) :: ps

/-- Value of a digit run. -/
def natOfDigits (ds : Chars) : Nat :=
  ds.foldl (fun a c => a * 10 + (c.toNat - 48)) 0

/-- Boundary `\b` holds to the right of a position whose next characters are `s`. -/
def boundaryOk : Chars → Bool
  | [] => true
  | c :: _ => !isWordChar c

/-- One verb of the regex alternation `^(v₁|v₂|…)\b` tried in order:
returns the (lower-case) verb together with the text after it. -/
def matchWordHead (verbs : List String) (s : Chars) : Option (String × Chars) :=
  match verbs with
  | [] => none
  | v :: vs =>
    if ciStarts v.data s && boundaryOk (s.drop v.length) then some (v, s.drop v.length)
    else matchWordHead vs s

/-- Separator class `[\s:\-]` of the verb patterns. -/
def isSepChar (c : Char) : Bool := isPyWs c || c = ':' || c = '-'

/-- Pattern `[\s:\-]*(.+)$` after the verb.  `rest` is always a suffix of a
`trimWs`-stripped message (every caller strips first), so its last character
is never whitespace and `$` — which in Python matches at the end of the
string or just before a single trailing newline — can only match at the
very end here.  `.` does not match `\n`, so the group `(.+)` must run from
its start position to the end without crossing a newline: an interior `\n`
makes the whole pattern fail, no matter how many separator characters the
engine hands back (shrinking the separator run only prepends characters to
the group, never removes the newline from it).  When nothing is left after
the greedy separator run, the engine backtracks one separator character,
which then becomes the whole body; that character must itself be matchable
by `.` (for stripped input the run's last character is `:` or `-`, never a
newline, but the check keeps the definition honest on its own terms). -/
def extractBody (rest : Chars) : Option Chars :=
  let run := rest.takeWhile isSepChar
  let after := rest.dropWhile isSepChar
  if after ≠ [] then
    if after.contains '\n' then none else some after
  else
    match run.getLast? with
    | some c => if c = '\n' then none else some [c]
    | none => none

/-- Pattern `^(v₁|…)\b[\s:\-]*(.+)$` under `re.I`: matched verb (canonical lower
case; the source interpolates the matched text back into later patterns
under `re.I`, so only its identity matters) and the body in original case. -/
def matchVerbBody (verbs : List String) (s : Chars) : Option (String × Chars) :=
  match matchWordHead verbs s with
  | none => none
  | some (v, rest) =>
    match extractBody rest with
    | none => none
    | some body => some (v, body)

/-- Does any of the words match at exactly this position, with the previous
character supplied for the left `\b`? -/
def wordHitAt (ws : List String) (prev : Option Char) (s : Chars) : Bool :=
  (match prev with | none => true | some p => !isWordChar p) &&
  ws.any (fun w => ciStarts w.data s && boundaryOk (s.drop w.length))

/-- Scanner for `re.findall(r'\b(?:w₁|w₂|…)\b', s)` counting.  Because every
match is delimited by word boundaries no two matches can overlap, so counting
one per starting position equals the findall count. -/
def countWordsGo (ws : List String) : Option Char → Chars → Nat
  | _, [] => 0
  | prev, c :: cs =>
    (if wordHitAt ws prev (c :: cs) then 1 else 0) + countWordsGo ws (some c) cs

def countWordsCI (ws : List String) (s : Chars) : Nat := countWordsGo ws none s

/-- Search `re.search(r'\b(w₁|w₂|…)\b', s)` viewed as a Boolean. -/
def anyWordCI (ws : List String) (s : Chars) : Bool := countWordsCI ws s ≠ 0

/-- Pattern `\s*(?:and)\s*` attempted at the head of `rest`: whitespace is greedy and
`and` is matched case-insensitively (`(?i)` flag in the source). -/
def tryAndAt (rest : Chars) : Option Chars :=
  let r1 := rest.dropWhile isPyWs
  if ciStarts "and".data r1 then some ((r1.drop 3).dropWhile isPyWs)
  else none

/-- Leftmost match of `\s*(?:and)\s*`: prefix before the match and suffix
after it. -/
def findAndMatch (acc : Chars) (s : Chars) : Option (Chars × Chars) :=
  match s with
  | [] => none
  | c :: cs =>
    match tryAndAt (c :: cs) with
    | some post => some (acc.reverse, post)
    | none => findAndMatch (c :: acc) cs

/-- Split `re.split(r'(?i)\s*(?:and)\s*', s)`.  The fuel is the string length; each
found match consumes at least the three characters of `and`, so the fuel
never runs out before the scan is finished. -/
def splitAndGo (fuel : Nat) (s : Chars) : List Chars :=
  match fuel with
  | 0 => [s]
  | fuel + 1 =>
    match findAndMatch [] s with
    | none => [s]
    | some (pre, post) => pre :: splitAndGo fuel post

def splitOnAnd (s : Chars) : List Chars := splitAndGo s.length s

/-- Pattern `^\s*#?\s*\d+\s*[.!?]?\s*$` together with extracting the digits: the
source re-scans the name with `re.search(r'(\d+)', name)` whose first digit
run is necessarily the one matched here. -/
def numericRef (name : Chars) : Option Nat :=
  let s1 := name.dropWhile isPyWs
  let s2 := (match s1 with
             | '#' :: r => r
             | _ => s1).dropWhile isPyWs
  let ds := s2.takeWhile Char.isDigit
  let s3 := s2.dropWhile Char.isDigit
  if ds = [] then none
  else
    let s4 := s3.dropWhile isPyWs
    let s5 := match s4 with
              | c :: r => if c = '.' || c = '!' || c = '?' then r else s4
              | [] => s4
    if s5.dropWhile isPyWs = [] then some (natOfDigits ds) else none

/-- Pattern `(\d+)\s*-\s*(\d+)` attempted at the head of `s`; returns the two values
and the text after the match.  The greedy digit/whitespace runs never need to
backtrack here because shrinking them exposes a character of the same class,
which the next pattern element cannot match. -/
def tryRangeAt (s : Chars) : Option (Nat × Nat × Chars) :=
  let d1 := s.takeWhile Char.isDigit
  if d1 = [] then none
  else
    match (s.dropWhile Char.isDigit).dropWhile isPyWs with
    | '-' :: r2 =>
      let r3 := r2.dropWhile isPyWs
      let d2 := r3.takeWhile Char.isDigit
      if d2 = [] then none
      else some (natOfDigits d1, natOfDigits d2, r3.dropWhile Char.isDigit)
    | _ => none

lemma length_dropWhile_le (p : Char → Bool) (l : Chars) :
    (l.dropWhile p).length ≤ l.length := by
  induction l with
  | nil => simp [List.dropWhile]
  | cons c cs ih =>
    by_cases h : p c <;> simp [List.dropWhile, h] <;> omega

lemma tryRangeAt_shrinks {s r : Chars} {a b : Nat}
    (h : tryRangeAt s = some (a, b, r)) : r.length < s.length := by
  unfold tryRangeAt at h
  by_cases h1 : s.takeWhile Char.isDigit = []
  · simp [h1] at h
  · simp only [h1, if_false] at h
    cases s with
    | nil => simp [List.takeWhile] at h1
    | cons c cs =>
      by_cases hc : Char.isDigit c
      · simp only [List.dropWhile, hc] at h
        rcases hm : (cs.dropWhile Char.isDigit).dropWhile isPyWs with _ | ⟨d, r2⟩
        · rw [hm] at h; simp at h
        · rw [hm] at h
          by_cases hd : d = '-'
          · subst hd
            simp only at h
            by_cases h2 : (r2.dropWhile isPyWs).takeWhile Char.isDigit = []
            · simp [h2] at h
            · simp only [h2, if_false, Option.some.injEq, Prod.mk.injEq] at h
              obtain ⟨-, -, hr⟩ := h
              have l1 : ((r2.dropWhile isPyWs).dropWhile Char.isDigit).length ≤ r2.length :=
                le_trans (length_dropWhile_le _ _) (length_dropWhile_le _ _)
              have l2 : ('-' :: r2).length ≤ (cs.dropWhile Char.isDigit).length := by
                rw [← hm]; exact length_dropWhile_le _ _
              have l3 : (cs.dropWhile Char.isDigit).length ≤ cs.length :=
                length_dropWhile_le _ _
              rw [← hr]
              simp only [List.length_cons] at l2 ⊢
              omega
          · simp [hd] at h
      · simp [List.takeWhile, hc] at h1

/-- Scan `re.findall(r'(\d+)\s*-\s*(\d+)', s)`: leftmost non-overlapping
matches, resuming after each match.  Structured on fuel so that it reduces
definitionally; by `tryRangeAt_shrinks` every step consumes at least one
character, so `s.length + 1` units of fuel always complete the scan. -/
def findRangesGo (fuel : Nat) (s : Chars) : List (Nat × Nat) :=
  match fuel with
  | 0 => []
  | fuel + 1 =>
    match tryRangeAt s with
    | some (a, b, r) => (a, b) :: findRangesGo fuel r
    | none =>
      match s with
      | [] => []
      | _ :: cs => findRangesGo fuel cs

def findRanges (s : Chars) : List (Nat × Nat) := findRangesGo (s.length + 1) s

/-- Scan `re.findall(r'\b(\d+)\b', s)`: maximal digit runs whose neighbours are
not word characters.  `bstart` records whether the position before the
current run is a boundary; `run` holds the current run reversed. -/
def wordNumsAcc : Bool → Chars → Chars → List Nat
  | bstart, run, [] => if run ≠ [] && bstart then [natOfDigits run.reverse] else []
  | bstart, run, c :: cs =>
    if c.isDigit then wordNumsAcc bstart (c :: run) cs
    else
      (if run ≠ [] && bstart && !isWordChar c then [natOfDigits run.reverse] else []) ++
      wordNumsAcc (!isWordChar c) [] cs

def wordNums (s : Chars) : List Nat := wordNumsAcc true [] s

/-- Insertion into a sorted duplicate-free list: `sorted(set(...))`. -/
def insertNatSet (n : Nat) : List Nat → List Nat
  | [] => [n]
  | m :: ms =>
    if n < m then n :: m :: ms
    else if n = m then m :: ms
    else m :: insertNatSet n ms

def sortedNatSet (l : List Nat) : List Nat := l.foldr insertNatSet []

/-- The id set of the complete branch: expanded `a-b` ranges (only when
`a ≤ b`) unioned with standalone integers, iterated in ascending order. -/
def idsOf (target : Chars) : List Nat :=
  sortedNatSet
    ((findRanges target).foldl
      (fun acc p => if p.1 ≤ p.2 then acc ++ List.range' p.1 (p.2 - p.1 + 1) else acc) []
     ++ wordNums target)

/-- Tail admissible after the lazy group of
`(.+?)\s*(?:as\s+complete|completed|done)?$`. -/
def tailOk (tl : Chars) : Bool :=
  let r := lowers (tl.dropWhile isPyWs)
  r = [] || r = "done".data || r = "completed".data ||
  (match r with
   | 'a' :: 's' :: c :: rest =>
     isPyWs c && ((c :: rest).dropWhile isPyWs = "complete".data)
   | _ => false)

/-- Lazy `(.+?)`: shortest nonempty prefix whose complement is an admissible
tail.  `.` does not match `\n`, so the group can never grow past a newline:
reaching one fails this separator-run level outright (the tail checks for
all shorter groups have already been tried and failed).  A newline inside
the admissible TAIL is fine — `\s*` eats it (`"mark milk\ndone"` matches
with target `milk`); the inputs are `trimWs`-stripped, so `$` is the end of
the string. -/
def lazyTargetGo (acc : Chars) : Chars → Option Chars
  | [] => none
  | c :: cs =>
    if c = '\n' then none
    else if tailOk cs then some (c :: acc).reverse
    else lazyTargetGo (c :: acc) cs

/-- The separator run `[\s:\-]*` is greedy, so longer runs are tried first;
only if no lazy target works does the engine hand separators back. -/
def completeTargetGo (rest : Chars) : Nat → Option Chars
  | 0 => lazyTargetGo [] rest
  | seplen + 1 =>
    match lazyTargetGo [] (rest.drop (seplen + 1)) with
    | some t => some t
    | none => completeTargetGo rest seplen

def completeTarget (rest : Chars) : Option Chars :=
  completeTargetGo rest (rest.takeWhile isSepChar).length

/-- Pattern `^(?:complete|mark|set)\b[\s:\-]*(.+?)\s*(?:as\s+complete|completed|done)?$`,
followed by the source's `target = m.group(1).strip()`. -/
def matchComplete (s : Chars) : Option Chars :=
  match matchWordHead ["complete", "mark", "set"] s with
  | none => none
  | some (_, rest) =>
    match completeTarget rest with
    | none => none
    | some t => some (trimWs t)

/-! ## Data model -/

/-- A task record.  `id` models the `uuid4()` string (opaque identity drawn
fresh from a counter; `0` plays the role of a falsy/absent id in the restore
defaults).  `created_at`/`updated_at` model the RFC3339 `utcnow()` strings,
which compare lexicographically exactly as the instants they denote. -/
structure Task where
  id : Nat
  short_id : Nat
  title : String
  description : String
  due_date : Option String
  completed : Bool
  created_at : Nat
  updated_at : Nat
deriving Repr, DecidableEq

/-- One entry of `UNDO_BUFFERS`: token ↦ `{'created': …, 'items': …}`.
`created` models the epoch-seconds float; the `items` are a deep copy, which
for immutable Lean values is the identity. -/
structure UndoEntry where
  token : Nat
  created : Nat
  items : List Task
deriving Repr, DecidableEq

/-- Constant `UNDO_EXPIRY_SECONDS = 60 * 5`. -/
def UNDO_EXPIRY_SECONDS : Nat := 60 * 5

/-- The module-level mutable state: `TASKS`, `NEXT_SHORT_ID`, `UNDO_BUFFERS`
(as an insertion-ordered association list, like a Python dict), and the two
freshness counters standing for `uuid4()` draws. -/
structure St where
  tasks : List Task
  nextShortId : Nat
  undo : List UndoEntry
  nextTok : Nat
  nextUuid : Nat
deriving Repr, DecidableEq

/-- Module initialisation: `TASKS = []`, `NEXT_SHORT_ID = 1`. -/
def initState : St := { tasks := [], nextShortId := 1, undo := [], nextTok := 1, nextUuid := 1 }

/-! ## Store helpers -/

/-- Stable insertion sort; `le` must hold on equal keys so that equal
elements keep their original order, exactly like CPython's stable
`list.sort` (also with `reverse=True`).  Generic in the element type: the
typed store and the raw-payload model of claim C1 both sort with it. -/
def insertLe {α : Type} (le : α → α → Bool) (x : α) : List α → List α
  | [] => [x]
  | y :: ys => if le x y then x :: y :: ys else y :: insertLe le x ys

def stableSort {α : Type} (le : α → α → Bool) : List α → List α
  | [] => []
  | x :: xs => insertLe le x (stableSort le xs)

/-- Source `find_task_index`: first index whose `id` matches, else `None`. -/
def find_task_index (tid : Nat) : List Task → Option Nat
  | [] => none
  | t :: ts =>
    if t.id = tid then some 0 else (find_task_index tid ts).map (· + 1)

/-- Source `find_task_index_by_short`. -/
def find_task_index_by_short (sid : Nat) : List Task → Option Nat
  | [] => none
  | t :: ts =>
    if t.short_id = sid then some 0 else (find_task_index_by_short sid ts).map (· + 1)

/-- Source `build_task`: allocates the next `short_id` and a fresh identity; the
caller appends the task to `TASKS` itself. -/
def build_task (title : String) (description : String) (due_date : Option String)
    (now : Nat) (st : St) : Task × St :=
  ({ id := st.nextUuid
     short_id := st.nextShortId
     title := String.mk (trimWs title.data)
     description := description
     due_date := due_date
     completed := false
     created_at := now
     updated_at := now },
   { st with nextShortId := st.nextShortId + 1, nextUuid := st.nextUuid + 1 })

/-- Positional reassignment of `short_id = 1..N`
(`for i, t in enumerate(TASKS, start=1): t['short_id'] = i`). -/
def assignShortIds (l : List Task) : List Task :=
  l.enum.map (fun p => { p.2 with short_id := p.1 + 1 })

/-- Source `renumber_short_ids`: sort `TASKS` by `created_at` (stable, oldest
first), assign `short_id = 1..N` positionally, reset the counter to `N+1`. -/
def renumber_short_ids (st : St) : St :=
  let ts := assignShortIds (stableSort (fun a b => decide (a.created_at ≤ b.created_at)) st.tasks)
  { st with tasks := ts, nextShortId := ts.length + 1 }

/-- Source `snapshot_undo_buffer`: deep-copy snapshot under a fresh token. -/
def snapshot_undo_buffer (items : List Task) (now : Nat) (st : St) : Nat × St :=
  (st.nextTok,
   { st with undo := st.undo ++ [{ token := st.nextTok, created := now, items := items }],
             nextTok := st.nextTok + 1 })

/-- Source `cleanup_undo_buffers`: drop entries with `now - created > 300`
(equivalently, keep those with `created + 300 ≥ now`). -/
def cleanup_undo_buffers (now : Nat) (st : St) : St :=
  { st with undo := st.undo.filter (fun e => decide (now ≤ e.created + UNDO_EXPIRY_SECONDS)) }

/-- Dict `UNDO_BUFFERS.pop(token, None)`: remove the (first, and in a dict only)
entry with this token, returning it and the remaining buffer. -/
def popUndo (tok : Nat) : List UndoEntry → Option (UndoEntry × List UndoEntry)
  | [] => none
  | e :: es =>
    if e.token = tok then some (e, es)
    else
      match popUndo tok es with
      | some (f, rest) => some (f, e :: rest)
      | none => none

/-- Source `parse_bool`. -/
def parse_bool (value : Option String) : Option Bool :=
  match value with
  | none => none
  | some v =>
    let w := String.mk (lowers (trimWs v.data))
    if w ∈ ["1", "true", "t", "yes", "y"] then some true
    else if w ∈ ["0", "false", "f", "no", "n"] then some false
    else none

/-! ## REST endpoints -/

inductive RestErr
  | badRequest
  | notFound
deriving Repr, DecidableEq

/-- Endpoint `POST /v1/tasks` (`create_task`).  The body's type checks (non-string
title/description/due_date rejected with 400 before any state change) are
absorbed into the typed parameters; the title length validation is kept. -/
def create_task (title : String) (description : String) (due_date : Option String)
    (now : Nat) (st : St) : Except RestErr Task × St :=
  if 1 ≤ (trimWs title.data).length ∧ (trimWs title.data).length ≤ 200 then
    let (t, st') := build_task title description due_date now st
    (.ok t, { st' with tasks := st'.tasks ++ [t] })
  else (.error .badRequest, st)

/-- Endpoint `DELETE /v1/tasks/<id>` (`delete_task`): pop, renumber, snapshot the
removed record; responds with the removed task's (pre-renumber) `short_id`
and the undo token. -/
def delete_task (tid : Nat) (now : Nat) (st : St) : Except RestErr (Nat × Nat) × St :=
  match find_task_index tid st.tasks with
  | none => (.error .notFound, st)
  | some i =>
    match st.tasks[i]? with
    | none => (.error .notFound, st)
    | some removed =>
      let st₁ := renumber_short_ids { st with tasks := st.tasks.eraseIdx i }
      let p := snapshot_undo_buffer [removed] now st₁
      (.ok (removed.short_id, p.1), p.2)

/-- Endpoint `DELETE /v1/tasks` (`delete_all_tasks`): requires `confirm=true`; an
empty store is a snapshot-free no-op; otherwise clear, renumber, snapshot
the previous contents.  Returns `(deleted, undo_token?)`. -/
def delete_all_tasks (confirm : Option String) (now : Nat) (st : St) :
    Except RestErr (Nat × Option Nat) × St :=
  if parse_bool confirm ≠ some true then (.error .badRequest, st)
  else if st.tasks.length = 0 then (.ok (0, none), st)
  else
    let before := st.tasks
    let st₁ := renumber_short_ids { st with tasks := [] }
    let p := snapshot_undo_buffer before now st₁
    (.ok (before.length, some p.1), p.2)

/-- Python truthiness of a JSON value (numbers modelled as integers). -/
inductive JVal
  | jnull
  | jb (b : Bool)
  | jn (n : Int)
  | js (s : String)
  | jarr (xs : List JVal)
  | jobj (kvs : List (String × JVal))

def pyTruthy : JVal → Bool
  | .jnull => false
  | .jb b => b
  | .jn n => n != 0
  | .js s => s != ""
  | .jarr xs => !xs.isEmpty
  | .jobj kvs => !kvs.isEmpty

/-- Lookup `data["completed"]` when `isinstance(data, dict) and "completed" in
data`; `none` both for a non-dict body and for a dict without the key (the
source rejects both with the same 400). -/
def jlookup (k : String) : JVal → Option JVal
  | .jobj kvs => kvs.lookup k
  | _ => none

/-- Endpoint `PATCH /v1/tasks/<id>` (`patch_task`): 404 for an unknown id, else 400
unless the JSON body is a dict containing `completed`; the stored flag
becomes `bool(data["completed"])` and `updated_at` is refreshed. -/
def patch_task (tid : Nat) (body : JVal) (now : Nat) (st : St) : Except RestErr Task × St :=
  match find_task_index tid st.tasks with
  | none => (.error .notFound, st)
  | some i =>
    match jlookup "completed" body with
    | none => (.error .badRequest, st)
    | some v =>
      match st.tasks[i]? with
      | none => (.error .notFound, st)
      | some t =>
        let t' := { t with completed := pyTruthy v, updated_at := now }
        (.ok t', { st with tasks := st.tasks.set i t' })

inductive UndoResp
  | err400
  | err404
  | restored (n : Nat)
deriving Repr, DecidableEq

/-- One iteration of the restore loop of `undo_restore`: the item gets a
fresh id on collision with `existing` (or on a falsy id, `0` here), its
`created_at` defaults to now when falsy, and the appended record is rebuilt
with `title or description or ''` and `bool(completed)`.  The item is typed
as a well-formed `Task` here because this typed path serves the token form
of the endpoint, whose items are snapshots of real store records; the
source performs NO validation of client-posted items, and on raw JSON
payloads the subsequent renumber can raise — that behaviour is embedded
separately as `restoreStepRaw`/`undo_restore_items_raw` (claim C1). -/
def restoreStep (existing : List Nat) (now : Nat) (s : St) (it : Task) : St :=
  let fresh := it.id = 0 || existing.contains it.id
  let rec_ : Task :=
    { id := if fresh then s.nextUuid else it.id
      short_id := it.short_id
      title := if it.title ≠ "" then it.title
               else if it.description ≠ "" then it.description else ""
      description := it.description
      due_date := it.due_date
      completed := it.completed
      created_at := if it.created_at = 0 then now else it.created_at
      updated_at := now }
  { s with tasks := s.tasks ++ [rec_],
           nextUuid := if fresh then s.nextUuid + 1 else s.nextUuid }

/-- The restore loop: `existing_ids` is computed once before the loop, then
one renumber runs after it.  The HTTP payload slices `TASKS[-len(items):]`
after renumbering; only the count is carried here. -/
def restoreItems (items : List Task) (now : Nat) (st : St) : UndoResp × St :=
  (.restored items.length,
   renumber_short_ids (items.foldl (restoreStep (st.tasks.map (·.id)) now) st))

/-- Endpoint `POST /v1/undo/restore` (`undo_restore`): expired buffers are swept
first; a supplied token is consumed (404 when missing/expired); restoring
nothing is a 400.  The `items` parameter models the posted-items form only
for payloads that happen to be well-formed task records; the unvalidated
raw-JSON form — where the source can die mid-mutation — is
`undo_restore_items_raw` below. -/
def undo_restore (token : Option Nat) (items : Option (List Task)) (now : Nat) (st : St) :
    UndoResp × St :=
  let st₀ := cleanup_undo_buffers now st
  match token with
  | some tok =>
    match popUndo tok st₀.undo with
    | none => (.err404, st₀)
    | some (buf, rest) =>
      let st₁ := { st₀ with undo := rest }
      if buf.items = [] then (.err400, st₁)
      else restoreItems buf.items now st₁
  | none =>
    match items with
    | some its => if its = [] then (.err400, st₀) else restoreItems its now st₀
    | none => (.err400, st₀)

/-! ## The chat endpoint -/

/-- Responses of `POST /v1/chat`, one constructor per `return` site of
`chat_translate_and_execute`.  `added` carries the records as built; the
source renumbers these same dicts in place before serialising, which can
change only their `short_id` fields, never count or titles. -/
inductive ChatResp
  | err400
  | added (ts : List Task)
  | noTasksToDelete
  | deletedAll (n : Nat) (tok : Nat)
  | noTaskNumber (sid : Nat)
  | deletedOne (t : Task) (tok : Nat)
  | noMatches (name : String)
  | serverError
  | choices (deleteMode : Bool) (name : String) (cs : List (Nat × String))
  | allAlreadyComplete
  | completedAll (n : Nat)
  | completedIds (updated : List Task) (notFound : List Nat) (ids : List Nat)
  | completedOne (t : Task)
  | fallback
deriving Repr, DecidableEq

def addVerbs : List String := ["add", "buy", "create", "todo"]
def removeVerbs : List String := ["remove", "delete", "clear"]
def innerVerbs : List String := ["buy", "add", "get", "purchase", "grab"]

/-- Splitting the add body into parts: commas win; otherwise `and` only when
the inner verbs repeat; otherwise the whole body. -/
def addParts (body : Chars) : List Chars :=
  if body.contains ',' then
    ((splitOnComma body).map trimWs).filter (fun p => p ≠ [])
  else if 1 < countWordsCI innerVerbs body && anyWordCI ["and"] body then
    splitOnAnd body
  else [body]

/-- Per-part cleaning: a leading repeat of the original verb is removed only
when `^\s*verb\b` matches the part (the `re.sub` pattern has no leading
`\s*`, so a part with leading whitespace keeps its verb), then whitespace
and surrounding quotes are stripped. -/
def cleanItem (verb : String) (p : Chars) : Chars :=
  let pl := p.dropWhile isPyWs
  let item :=
    if ciStarts verb.data pl && boundaryOk (pl.drop verb.length) then
      trimWs
        (if ciStarts verb.data p && boundaryOk (p.drop verb.length) then
          (p.drop verb.length).dropWhile isPyWs
         else p)
    else trimWs p
  stripSet [' ', '"', Char.ofNat 39] item

/-- The nonempty cleaned items of the add branch (empty items are skipped by
the loop; skipping contributes nothing, so they are filtered up front). -/
def addItems (verb : String) (body : Chars) : List Chars :=
  ((addParts body).map (cleanItem verb)).filter (fun i => i ≠ [])

/-- One iteration of the add loop: `build_task(title=item)` followed by the
append to `TASKS`, accumulating the `added` list. -/
def addStep (now : Nat) (acc : List Task × St) (item : Chars) : List Task × St :=
  let b := build_task (String.mk item) "" none now acc.2
  (acc.1 ++ [b.1], { b.2 with tasks := b.2.tasks ++ [b.1] })

/-- The add branch: one `build_task` + append per item, a single renumber at
the end; with zero items the branch falls through (`none`) leaving the state
untouched. -/
def execAdd (verb : String) (body : Chars) (now : Nat) (st : St) :
    Option (List Task) × St :=
  match addItems verb body with
  | [] => (none, st)
  | items =>
    let r := items.foldl (addStep now) ([], st)
    (some r.1, renumber_short_ids r.2)

/-- Case-insensitive substring match of the name against
`title + ' ' + description`. -/
def nameMatches (name : Chars) (ts : List Task) : List Task :=
  ts.filter (fun t => containsSub (lowers name) (lowers (t.title.data ++ ' ' :: t.description.data)))

/-- The remove branch (`m_remove`): delete-all on an `all`-word, else
delete-by-number on a pure numeric reference, else the fuzzy name cascade
(no match / unique match / disambiguation). -/
def execRemove (body : Chars) (now : Nat) (st : St) : ChatResp × St :=
  let name := trimWs body
  if anyWordCI ["all", "every", "everything"] name then
    if st.tasks.length = 0 then (.noTasksToDelete, st)
    else
      let before := st.tasks
      let st₁ := renumber_short_ids { st with tasks := [] }
      let p := snapshot_undo_buffer before now st₁
      (.deletedAll before.length p.1, p.2)
  else
    match numericRef name with
    | some sid =>
      match find_task_index_by_short sid st.tasks with
      | none => (.noTaskNumber sid, st)
      | some i =>
        match st.tasks[i]? with
        | none => (.noTaskNumber sid, st)
        | some deleted =>
          let st₁ := renumber_short_ids { st with tasks := st.tasks.eraseIdx i }
          let p := snapshot_undo_buffer [deleted] now st₁
          (.deletedOne deleted p.1, p.2)
    | none =>
      match nameMatches name st.tasks with
      | [] => (.noMatches (String.mk name), st)
      | [m] =>
        match find_task_index m.id st.tasks with
        | none => (.serverError, st)
        | some i =>
          match st.tasks[i]? with
          | none => (.serverError, st)
          | some deleted =>
            let st₁ := renumber_short_ids { st with tasks := st.tasks.eraseIdx i }
            let p := snapshot_undo_buffer [deleted] now st₁
            (.deletedOne deleted p.1, p.2)
      | ms => (.choices true (String.mk name) (ms.map (fun t => (t.short_id, t.title))), st)

/-- Mark the first task with this `short_id` complete, returning the updated
store and the updated record. -/
def markShort (sid : Nat) (now : Nat) (ts : List Task) : Option (List Task × Task) :=
  match find_task_index_by_short sid ts with
  | none => none
  | some i =>
    match ts[i]? with
    | none => none
    | some t =>
      let t' := { t with completed := true, updated_at := now }
      some (ts.set i t', t')

/-- Loop `for sid in sorted(ids)`: mark each found id, record the missing ones;
`updated`/`not_found` come out in ascending id order. -/
def markIds (ids : List Nat) (now : Nat) (ts : List Task) :
    List Task × List Task × List Nat :=
  match ids with
  | [] => (ts, [], [])
  | sid :: rest =>
    match markShort sid now ts with
    | none =>
      let (ts', up, nf) := markIds rest now ts
      (ts', up, sid :: nf)
    | some (ts1, t') =>
      let (ts', up, nf) := markIds rest now ts1
      (ts', t' :: up, nf)

/-- The complete branch (`m_complete`): `all` shortcut, else numeric ids and
ranges, else the fuzzy name cascade with "mark complete" as the unique-match
action. -/
def execComplete (target : Chars) (now : Nat) (st : St) : ChatResp × St :=
  if anyWordCI ["all"] target then
    let changed := (st.tasks.filter (fun t => !t.completed)).length
    if changed = 0 then (.allAlreadyComplete, st)
    else
      let ts := st.tasks.map
        (fun t => if t.completed then t else { t with completed := true, updated_at := now })
      (.completedAll changed, { st with tasks := ts })
  else
    match idsOf target with
    | [] =>
      match nameMatches target st.tasks with
      | [] => (.noMatches (String.mk target), st)
      | [m] =>
        match find_task_index m.id st.tasks with
        | none => (.serverError, st)
        | some i =>
          match st.tasks[i]? with
          | none => (.serverError, st)
          | some t =>
            let t' := { t with completed := true, updated_at := now }
            (.completedOne t', { st with tasks := st.tasks.set i t' })
      | ms => (.choices false (String.mk target) (ms.map (fun t => (t.short_id, t.title))), st)
    | ids =>
      let r := markIds ids now st.tasks
      (.completedIds r.2.1 r.2.2 ids, { st with tasks := r.1 })

/-- The cascade after the add branch. -/
def chatRest (text : Chars) (now : Nat) (st : St) : ChatResp × St :=
  match matchVerbBody removeVerbs text with
  | some (_, body) => execRemove body now st
  | none =>
    match matchComplete text with
    | some target => execComplete target now st
    | none => (.fallback, st)

/-- Endpoint `POST /v1/chat` (`chat_translate_and_execute`).  The trailing OpenAI
delegation mutates no store state in any of its branches and is collapsed
into the `fallback` response. -/
def chat (msg : String) (now : Nat) (st : St) : ChatResp × St :=
  if trimWs msg.data = [] then (.err400, st)
  else
    match matchVerbBody addVerbs (trimWs msg.data) with
    | some (verb, body) =>
      match execAdd verb body now st with
      | (some added, st') => (.added added, st')
      | (none, st') => chatRest (trimWs msg.data) now st'
    | none => chatRest (trimWs msg.data) now st

/-! ## The operations of claim C1 -/

/-- One store-mutating request together with the instant it arrives. -/
inductive Op
  | restCreate (title description : String) (due : Option String)
  | restDelete (tid : Nat)
  | restDeleteAll (confirm : Option String)
  | chatMsg (msg : String)
  | restore (token : Option Nat) (items : Option (List Task))
deriving Repr

def applyOp (op : Op) (now : Nat) (st : St) : St :=
  match op with
  | .restCreate title d due => (create_task title d due now st).2
  | .restDelete tid => (delete_task tid now st).2
  | .restDeleteAll c => (delete_all_tasks c now st).2
  | .chatMsg m => (chat m now st).2
  | .restore tok its => (undo_restore tok its now st).2

def applyOps (ops : List (Op × Nat)) (st : St) : St :=
  ops.foldl (fun s p => applyOp p.1 p.2 s) st

/-! ## The raw restore payload (claim C1)

`POST /v1/undo/restore` also accepts `{ items: [...] }` straight from the
client, and the source validates nothing about those dicts: every field of
the appended record is taken from the posted JSON as-is (`short_id`
verbatim, `created_at` verbatim when truthy), and only afterwards does
`renumber_short_ids` sort by `t.get('created_at') or ''` — a sort that
raises `TypeError` on mixed key types, aborting the request AFTER the
appends, inside the `with TASKS_LOCK` block, with nothing rolled back.  The
definitions below embed that path over raw scalar JSON fields, exactly as
the handler reads them. -/

/-- A JSON scalar as the restore endpoint stores it.  Arrays and objects in
item fields are not modelled: used as an `id` they already make the
handler's membership test against the id set raise (unhashable), and as a
`created_at` they add further `TypeError` routes to the sort; the scalar
fragment is enough to exercise the failure this section is about. -/
inductive JScalar
  | null
  | b (v : Bool)
  | n (v : Int)
  | s (v : String)
deriving Repr, DecidableEq

/-- Python truthiness of a scalar. -/
def truthyS : JScalar → Bool
  | .null => false
  | .b v => v
  | .n v => v != 0
  | .s v => v != ""

/-- Python's numeric view of a scalar: `bool` is an `int` subclass, so
`True`/`False` compare with numbers. -/
def scalarNum : JScalar → Option Int
  | .b v => some (if v then 1 else 0)
  | .n v => some v
  | _ => none

/-- Python `a < b` on two scalars: `some` when the comparison is defined
(numbers with numbers, strings with strings), `none` for the `TypeError`
of mixed types, e.g. `123 < "2025-01-01T00:00:00Z"`. -/
def scalarLt (a b : JScalar) : Option Bool :=
  match scalarNum a, scalarNum b with
  | some x, some y => some (decide (x < y))
  | _, _ =>
    match a, b with
    | .s x, .s y => some (decide (x < y))
    | _, _ => none

/-- A stored task dict on the raw side: field values exactly as posted (or
as the handler filled them in). -/
structure RawTask where
  id : JScalar
  short_id : JScalar
  title : JScalar
  description : JScalar
  due_date : JScalar
  completed : JScalar
  created_at : JScalar
  updated_at : JScalar
deriving Repr, DecidableEq

/-- A posted restore item; `none` is an absent key (`dict.get` default). -/
structure RawItem where
  id : Option JScalar := none
  short_id : Option JScalar := none
  title : Option JScalar := none
  description : Option JScalar := none
  due_date : Option JScalar := none
  completed : Option JScalar := none
  created_at : Option JScalar := none
deriving Repr, DecidableEq

/-- The raw-side module state: `TASKS` and `NEXT_SHORT_ID`.  `UNDO_BUFFERS`
is omitted because the posted-items path never reads it and the expiry
sweep mutates only that dict; `nextUuid` is the usual freshness counter
behind `uuid4()`.  Timestamps are carried as the strings `utcnow()`
produces. -/
structure RawSt where
  tasks : List RawTask
  nextShortId : Nat
  nextUuid : Nat
deriving Repr, DecidableEq

/-- Module initialisation on the raw side: `TASKS = []`, `NEXT_SHORT_ID = 1`. -/
def initRawSt : RawSt := { tasks := [], nextShortId := 1, nextUuid := 1 }

/-- The `uuid4()` string for counter value `u` (fresh counters give fresh,
hence distinct, strings). -/
def uuidStr (u : Nat) : JScalar := .s ("uuid-" ++ toString u)

/-- Source `build_task`/`create_task` on the raw side, success path guarded
by the same title validation as the typed `create_task` (the body's type
checks are absorbed into the string parameters in the same way): the built
dict always carries a string uuid, the integer `NEXT_SHORT_ID`, string
title and timestamps — raw stores reached only through creates are
perfectly well-formed. -/
def create_task_raw (title description : String) (due : Option String)
    (nowS : String) (st : RawSt) : Except RestErr RawTask × RawSt :=
  if 1 ≤ (trimWs title.data).length ∧ (trimWs title.data).length ≤ 200 then
    let t : RawTask :=
      { id := uuidStr st.nextUuid
        short_id := .n (Int.ofNat st.nextShortId)
        title := .s (String.mk (trimWs title.data))
        description := .s description
        due_date := match due with | some d => .s d | none => .null
        completed := .b false
        created_at := .s nowS
        updated_at := .s nowS }
    (.ok t, { st with tasks := st.tasks ++ [t],
                      nextShortId := st.nextShortId + 1,
                      nextUuid := st.nextUuid + 1 })
  else (.error .badRequest, st)

/-- Sort key of `renumber_short_ids`: `t.get('created_at') or ''`. -/
def rawSortKey (t : RawTask) : JScalar :=
  if truthyS t.created_at then t.created_at else .s ""

/-- CPython's `list.sort` raises `TypeError` as soon as it compares two
keys whose types do not support `<`.  On a list whose keys are mutually
comparable it never raises, and on a two-element mixed list the one pair is
always compared; both facts are captured by raising exactly when some pair
of keys is incomparable.  (On longer mixed lists CPython may raise after
fewer comparisons; no statement here depends on that difference, the lists
this section sorts have at most two elements.) -/
def rawKeysComparable (l : List RawTask) : Bool :=
  l.all (fun a => l.all (fun b => (scalarLt (rawSortKey a) (rawSortKey b)).isSome))

/-- Source `renumber_short_ids` on the raw store: sort by the key (stable
ascending — an element stays before a later one unless the later key is
strictly smaller), assign `short_id = 1..N` as Python ints, reset the
counter.  `.error ()` is the uncaught `TypeError` of a mixed-type sort:
the request dies before ANY `short_id` is assigned or the counter touched. -/
def renumber_short_ids_raw (st : RawSt) : Except Unit RawSt :=
  if rawKeysComparable st.tasks then
    let le : RawTask → RawTask → Bool :=
      fun a b => !((scalarLt (rawSortKey b) (rawSortKey a)).getD false)
    let ts := (stableSort le st.tasks).enum.map
      (fun p => { p.2 with short_id := JScalar.n (Int.ofNat p.1 + 1) })
    .ok { st with tasks := ts, nextShortId := ts.length + 1 }
  else .error ()

/-- One iteration of the restore loop on a posted raw item (`undo_restore`,
items branch): fresh uuid when `it.get('id')` is falsy or collides with
`existing_ids`, `created_at` defaulted to now when falsy, and the appended
dict stores `short_id = it.get('short_id')` VERBATIM — `None` when the
client posted no such key — plus `title or description or ''`,
`description` with default `''`, `due_date` verbatim,
`bool(it.get('completed', False))`, and a fresh `updated_at`. -/
def restoreStepRaw (existing : List JScalar) (nowS : String) (s : RawSt) (it : RawItem) : RawSt :=
  let pid := it.id.getD .null
  let fresh := !truthyS pid || existing.contains pid
  let newId := if fresh then uuidStr s.nextUuid else pid
  let ca0 := it.created_at.getD .null
  let tv := it.title.getD .null
  let dv := it.description.getD .null
  let rec_ : RawTask :=
    { id := newId
      short_id := it.short_id.getD .null
      title := if truthyS tv then tv else if truthyS dv then dv else .s ""
      description := it.description.getD (.s "")
      due_date := it.due_date.getD .null
      completed := .b (truthyS (it.completed.getD (.b false)))
      created_at := if truthyS ca0 then ca0 else .s nowS
      updated_at := .s nowS }
  { s with tasks := s.tasks ++ [rec_],
           nextUuid := if fresh then s.nextUuid + 1 else s.nextUuid }

/-- Responses of the posted-items form of `POST /v1/undo/restore`:
`err400` (`no items to restore`), `restored n` (200), or the uncaught
`TypeError` Flask turns into a 500 — paired in every case with the store
exactly as the handler leaves it: appends made before a raising renumber
are NOT rolled back. -/
inductive RawUndoResp
  | err400
  | restored (n : Nat)
  | typeError
deriving Repr, DecidableEq

/-- Endpoint `POST /v1/undo/restore` with `{ items: [...] }` and no token
(the token form is the typed `undo_restore`; the expiry sweep only prunes
the omitted buffer dict): `existing_ids` is computed once, every item is
appended, then one renumber runs.  When its sort raises, the mutated
`TASKS` — stale or `None` `short_id`s included — survives the 500, and
`NEXT_SHORT_ID` keeps its old value. -/
def undo_restore_items_raw (items : List RawItem) (nowS : String) (st : RawSt) :
    RawUndoResp × RawSt :=
  if items = [] then (.err400, st)
  else
    let stF := items.foldl (restoreStepRaw (st.tasks.map (·.id)) nowS) st
    match renumber_short_ids_raw stF with
    | .ok st' => (.restored items.length, st')
    | .error _ => (.typeError, stF)

/-- The malformed restore item of the C1 demonstration:
`{"title": "x", "created_at": 123}` — a perfectly legal JSON body the
handler accepts without question. -/
def badRestoreItem : RawItem :=
  { title := some (.s "x"), created_at := some (.n 123) }

/-- Store after `POST /v1/tasks {"title":"a"}` on the empty store. -/
def bugSt1 : RawSt :=
  (create_task_raw "a" "" none "2025-01-01T00:00:00Z" initRawSt).2

/-- Store after the malformed restore: the appended record is in `TASKS`
with `short_id = None`, the renumber died, the counter still reads 2. -/
def bugSt2 : RawSt :=
  (undo_restore_items_raw [badRestoreItem] "2025-01-01T00:01:00Z" bugSt1).2

/-- Store after the next `POST /v1/tasks {"title":"b"}`, which completes
normally with a 201. -/
def bugSt3 : RawSt :=
  (create_task_raw "b" "" none "2025-01-01T00:02:00Z" bugSt2).2

/-! ## `GET /v1/tasks` -/

def validSortKeys : List String := ["created_at", "due_date", "short_id", "id"]

/-- Total lexicographic string order (Python's `<=` on `str`). -/
def strLe (a b : String) : Bool := a == b || decide (a < b)

/-- The sort key comparison of `get_tasks`: numeric for `short_id`, string
for the others (`due_date` defaulting to `""`; the `id` uuid string order is
modelled through the numeric identity).  `reverse=True` flips the
comparison, keeping ties stable exactly as CPython does. -/
def sortLe (key : String) (reverse : Bool) (a b : Task) : Bool :=
  let le : Task → Task → Bool :=
    if key = "short_id" then fun x y => decide (x.short_id ≤ y.short_id)
    else if key = "due_date" then fun x y => strLe (x.due_date.getD "") (y.due_date.getD "")
    else if key = "id" then fun x y => decide (x.id ≤ y.id)
    else fun x y => decide (x.created_at ≤ y.created_at)
  if reverse then le b a else le a b

/-- Python `sort.startswith("-")`. -/
def startsWithDash (sort : String) : Bool :=
  match sort.data with
  | '-' :: _ => true
  | _ => false

/-- Endpoint `GET /v1/tasks` (`get_tasks`): completed filter, sort (default
`short_id`; `-` means descending; `lstrip('-')` then fall back to
`short_id` on an unknown key), then the `limit`/`offset` window.  The
string→int parsing of `limit`/`offset` (400 on failure) is absorbed into
the integer parameters; returns the page and the pre-page total. -/
def get_tasks (completedQ : Option String) (sortQ : Option String)
    (limitQ offsetQ : Int) (tasks : List Task) : List Task × Nat :=
  let items :=
    match parse_bool completedQ with
    | some b => tasks.filter (fun t => t.completed == b)
    | none => tasks
  let sort := sortQ.getD "short_id"
  let reverse := startsWithDash sort
  let key0 := String.mk (sort.data.dropWhile (fun c => c == '-'))
  let key := if validSortKeys.contains key0 then key0 else "short_id"
  let sorted := stableSort (sortLe key reverse) items
  let limit := (max 1 (min limitQ 200)).toNat
  let offset := (max 0 offsetQ).toNat
  ((sorted.drop offset).take limit, sorted.length)

/-! ## Reaching the fuzzy-name branches (for claim C8) -/

/-- The cascade conditions under which `chat` reaches a fuzzy name branch
after the remove verbs, or after the complete verbs: the same matchers, in
the same order, with the mutating/numeric/`all` outcomes excluded. -/
def chatNameQueryRest (text : Chars) : Option (Bool × Chars) :=
  match matchVerbBody removeVerbs text with
  | some (_, body) =>
    if anyWordCI ["all", "every", "everything"] (trimWs body) then none
    else
      match numericRef (trimWs body) with
      | some _ => none
      | none => some (true, trimWs body)
  | none =>
    match matchComplete text with
    | some target =>
      if anyWordCI ["all"] target then none
      else
        match idsOf target with
        | [] => some (false, target)
        | _ => none
    | none => none

/-- Adds to `chatNameQueryRest` the condition that the add branch either
does not match or matches with zero items (and hence falls through without
touching the store). -/
def chatNameQuery (text : Chars) : Option (Bool × Chars) :=
  match matchVerbBody addVerbs text with
  | some (verb, body) =>
    if addItems verb body = [] then chatNameQueryRest text else none
  | none => chatNameQueryRest text

/-! ## Lemmas: stable sort and renumbering -/

lemma insertLe_perm (le : Task → Task → Bool) (x : Task) (l : List Task) :
    List.Perm (insertLe le x l) (x :: l) := by
  induction l with
  | nil => exact List.Perm.refl _
  | cons y ys ih =>
    unfold insertLe
    by_cases h : le x y
    · rw [if_pos h]
    · rw [if_neg h]
      exact List.Perm.trans (List.Perm.cons y ih) (List.Perm.swap x y ys)

lemma stableSort_perm (le : Task → Task → Bool) (l : List Task) :
    List.Perm (stableSort le l) l := by
  induction l with
  | nil => exact List.Perm.refl _
  | cons x xs ih =>
    exact List.Perm.trans (insertLe_perm le x (stableSort le xs)) (List.Perm.cons x ih)

lemma length_stableSort (le : Task → Task → Bool) (l : List Task) :
    (stableSort le l).length = l.length :=
  (stableSort_perm le l).length_eq

/-- Mapping a `short_id`-blind function over the positional reassignment is
mapping it over the underlying list. -/
lemma map_enumFrom_assign {α : Type} (f : Task → α)
    (hf : ∀ (t : Task) (i : Nat), f { t with short_id := i } = f t) :
    ∀ (n : Nat) (l : List Task),
      ((l.enumFrom n).map (fun p => { p.2 with short_id := p.1 + 1 })).map f = l.map f := by
  intro n l
  induction l generalizing n with
  | nil => rfl
  | cons x xs ih =>
    simp only [List.enumFrom, List.map_cons, hf]
    rw [ih]

/-- The reassignment makes the `short_id` column `n+1, n+2, …`. -/
lemma map_short_enumFrom_assign :
    ∀ (n : Nat) (l : List Task),
      ((l.enumFrom n).map (fun p => { p.2 with short_id := p.1 + 1 })).map Task.short_id
        = List.range' (n + 1) l.length := by
  intro n l
  induction l generalizing n with
  | nil => rfl
  | cons x xs ih =>
    simp only [List.enumFrom, List.map_cons, List.length_cons, List.range'_succ]
    exact congrArg (List.cons (n + 1)) (ih (n + 1))

lemma map_assignShortIds {α : Type} (f : Task → α)
    (hf : ∀ (t : Task) (i : Nat), f { t with short_id := i } = f t) (l : List Task) :
    (assignShortIds l).map f = l.map f :=
  map_enumFrom_assign f hf 0 l

lemma map_short_assignShortIds (l : List Task) :
    (assignShortIds l).map Task.short_id = List.range' 1 l.length :=
  map_short_enumFrom_assign 0 l

lemma length_assignShortIds (l : List Task) :
    (assignShortIds l).length = l.length := by
  have h := congrArg List.length (map_short_assignShortIds l)
  simpa using h

/-- The dense-numbering invariant of the claim: the `short_id` column reads
`1..N` (in list order, which is stronger than as a set) and the counter
stands at `N+1`. -/
def ShortInv (st : St) : Prop :=
  st.tasks.map Task.short_id = List.range' 1 st.tasks.length ∧
  st.nextShortId = st.tasks.length + 1

lemma shortInv_initState : ShortInv initState := ⟨rfl, rfl⟩

lemma renumber_tasks_eq (st : St) :
    (renumber_short_ids st).tasks
      = assignShortIds (stableSort (fun a b => decide (a.created_at ≤ b.created_at)) st.tasks) :=
  rfl

/-- Renumbering re-establishes the invariant from any state. -/
lemma shortInv_renumber (st : St) : ShortInv (renumber_short_ids st) := by
  constructor
  · rw [renumber_tasks_eq, map_short_assignShortIds, length_assignShortIds]
  · rfl

lemma snapshot_tasks (items : List Task) (now : Nat) (st : St) :
    (snapshot_undo_buffer items now st).2.tasks = st.tasks := rfl

lemma snapshot_nextShortId (items : List Task) (now : Nat) (st : St) :
    (snapshot_undo_buffer items now st).2.nextShortId = st.nextShortId := rfl

lemma shortInv_snapshot (items : List Task) (now : Nat) (st : St) (h : ShortInv st) :
    ShortInv (snapshot_undo_buffer items now st).2 := h

/-- A map that does not touch `short_id` keeps the column. -/
lemma map_short_map (f : Task → Task) (hf : ∀ t, (f t).short_id = t.short_id)
    (l : List Task) : (l.map f).map Task.short_id = l.map Task.short_id := by
  induction l with
  | nil => rfl
  | cons x xs ih => simp only [List.map_cons, hf, ih]

/-- Replacing an element by one with the same `short_id` keeps the column. -/
lemma map_short_set (l : List Task) (i : Nat) (t t' : Task)
    (hget : l[i]? = some t) (hs : t'.short_id = t.short_id) :
    (l.set i t').map Task.short_id = l.map Task.short_id := by
  induction l generalizing i with
  | nil => simp at hget
  | cons x xs ih =>
    cases i with
    | zero =>
      simp only [List.getElem?_cons_zero, Option.some.injEq] at hget
      simp [List.set, hs, hget]
    | succ j =>
      simp only [List.getElem?_cons_succ] at hget
      simp only [List.set, List.map_cons]
      rw [ih j hget]

lemma markShort_short (sid now : Nat) (ts ts2 : List Task) (u : Task)
    (h : markShort sid now ts = some (ts2, u)) :
    ts2.map Task.short_id = ts.map Task.short_id := by
  unfold markShort at h
  cases hf : find_task_index_by_short sid ts with
  | none => rw [hf] at h; exact absurd h (by simp)
  | some i =>
    rw [hf] at h
    dsimp only at h
    cases hg : ts[i]? with
    | none => rw [hg] at h; exact absurd h (by simp)
    | some t =>
      rw [hg] at h
      dsimp only at h
      simp only [Option.some.injEq, Prod.mk.injEq] at h
      rw [← h.1]
      exact map_short_set ts i t _ hg rfl

lemma markIds_short (ids : List Nat) (now : Nat) (ts : List Task) :
    (markIds ids now ts).1.map Task.short_id = ts.map Task.short_id := by
  induction ids generalizing ts with
  | nil => rfl
  | cons sid rest ih =>
    rw [markIds]
    cases hm : markShort sid now ts with
    | none => dsimp only; exact ih ts
    | some p =>
      dsimp only
      rw [ih p.1, markShort_short sid now ts p.1 p.2 (by rw [hm])]

/-! ## Lemmas: every operation preserves the dense numbering -/

lemma shortInv_create (title d : String) (due : Option String) (now : Nat) (st : St)
    (h : ShortInv st) : ShortInv (create_task title d due now st).2 := by
  unfold create_task
  by_cases hv : 1 ≤ (trimWs title.data).length ∧ (trimWs title.data).length ≤ 200
  · rw [if_pos hv]
    refine ⟨?_, ?_⟩
    · show (st.tasks ++ [(build_task title d due now st).1]).map Task.short_id
        = List.range' 1 (st.tasks ++ [(build_task title d due now st).1]).length
      rw [List.map_append, List.length_append, h.1]
      show List.range' 1 st.tasks.length ++ [st.nextShortId]
        = List.range' 1 (st.tasks.length + 1)
      rw [h.2, List.range'_1_concat, Nat.add_comm 1 st.tasks.length]
    · show st.nextShortId + 1 = (st.tasks ++ [(build_task title d due now st).1]).length + 1
      rw [List.length_append, h.2]
      simp
  · rw [if_neg hv]
    exact h

lemma shortInv_execAdd (verb : String) (body : Chars) (now : Nat) (st : St)
    (h : ShortInv st) : ShortInv (execAdd verb body now st).2 := by
  unfold execAdd
  cases hi : addItems verb body with
  | nil => exact h
  | cons a as => exact shortInv_renumber _

lemma execAdd_none_snd (verb : String) (body : Chars) (now : Nat) (st : St)
    (h : (execAdd verb body now st).1 = none) : (execAdd verb body now st).2 = st := by
  unfold execAdd at h ⊢
  cases hi : addItems verb body with
  | nil => rfl
  | cons a as => rw [hi] at h; exact absurd h (by simp)

lemma shortInv_execRemove (body : Chars) (now : Nat) (st : St)
    (h : ShortInv st) : ShortInv (execRemove body now st).2 := by
  unfold execRemove
  by_cases hall : anyWordCI ["all", "every", "everything"] (trimWs body) = true
  · rw [if_pos hall]
    by_cases hz : st.tasks.length = 0
    · rw [if_pos hz]; exact h
    · rw [if_neg hz]
      exact shortInv_snapshot _ _ _ (shortInv_renumber _)
  · rw [if_neg hall]
    cases hn : numericRef (trimWs body) with
    | some sid =>
      dsimp only
      cases hf : find_task_index_by_short sid st.tasks with
      | none => exact h
      | some i =>
        dsimp only
        cases hg : st.tasks[i]? with
        | none => exact h
        | some deleted => exact shortInv_snapshot _ _ _ (shortInv_renumber _)
    | none =>
      dsimp only
      cases hm : nameMatches (trimWs body) st.tasks with
      | nil => exact h
      | cons m ms =>
        cases ms with
        | nil =>
          dsimp only
          cases hf : find_task_index m.id st.tasks with
          | none => exact h
          | some i =>
            dsimp only
            cases hg : st.tasks[i]? with
            | none => exact h
            | some deleted => exact shortInv_snapshot _ _ _ (shortInv_renumber _)
        | cons m2 ms2 => exact h

lemma shortInv_execComplete (target : Chars) (now : Nat) (st : St)
    (h : ShortInv st) : ShortInv (execComplete target now st).2 := by
  unfold execComplete
  by_cases hall : anyWordCI ["all"] target = true
  · rw [if_pos hall]
    by_cases hz : (st.tasks.filter (fun t => !t.completed)).length = 0
    · rw [if_pos hz]; exact h
    · rw [if_neg hz]
      refine ⟨?_, ?_⟩
      · show (st.tasks.map _).map Task.short_id = List.range' 1 (st.tasks.map _).length
        rw [map_short_map _ (fun t => by by_cases hc : t.completed <;> simp [hc]),
            List.length_map]
        exact h.1
      · show st.nextShortId = (st.tasks.map _).length + 1
        rw [List.length_map]; exact h.2
  · rw [if_neg hall]
    cases hids : idsOf target with
    | nil =>
      dsimp only
      cases hm : nameMatches target st.tasks with
      | nil => exact h
      | cons m ms =>
        cases ms with
        | nil =>
          dsimp only
          cases hf : find_task_index m.id st.tasks with
          | none => exact h
          | some i =>
            dsimp only
            cases hg : st.tasks[i]? with
            | none => exact h
            | some t =>
              refine ⟨?_, ?_⟩
              · show (st.tasks.set i _).map Task.short_id
                  = List.range' 1 (st.tasks.set i _).length
                rw [map_short_set st.tasks i t
                      { t with completed := true, updated_at := now } hg rfl,
                    List.length_set]
                exact h.1
              · show st.nextShortId = (st.tasks.set i _).length + 1
                rw [List.length_set]; exact h.2
        | cons m2 ms2 => exact h
    | cons i0 irest =>
      dsimp only
      have hlen : (markIds (i0 :: irest) now st.tasks).1.length = st.tasks.length := by
        have hc := congrArg List.length (markIds_short (i0 :: irest) now st.tasks)
        simpa using hc
      refine ⟨?_, ?_⟩
      · show (markIds (i0 :: irest) now st.tasks).1.map Task.short_id
          = List.range' 1 (markIds (i0 :: irest) now st.tasks).1.length
        rw [markIds_short, hlen]
        exact h.1
      · show st.nextShortId = (markIds (i0 :: irest) now st.tasks).1.length + 1
        rw [hlen]; exact h.2

lemma shortInv_chatRest (text : Chars) (now : Nat) (st : St)
    (h : ShortInv st) : ShortInv (chatRest text now st).2 := by
  unfold chatRest
  cases hr : matchVerbBody removeVerbs text with
  | some p =>
    dsimp only
    exact shortInv_execRemove p.2 now st h
  | none =>
    dsimp only
    cases hc : matchComplete text with
    | some target => exact shortInv_execComplete target now st h
    | none => exact h

lemma shortInv_chat (msg : String) (now : Nat) (st : St)
    (h : ShortInv st) : ShortInv (chat msg now st).2 := by
  unfold chat
  by_cases hne : trimWs msg.data = []
  · rw [if_pos hne]; exact h
  · rw [if_neg hne]
    cases ha : matchVerbBody addVerbs (trimWs msg.data) with
    | none => exact shortInv_chatRest _ now st h
    | some p =>
      dsimp only
      cases he : execAdd p.1 p.2 now st with
      | mk r st2 =>
        cases r with
        | some added =>
          dsimp only
          have hInv := shortInv_execAdd p.1 p.2 now st h
          rw [he] at hInv
          exact hInv
        | none =>
          dsimp only
          have hsnd := execAdd_none_snd p.1 p.2 now st (by rw [he])
          rw [he] at hsnd
          dsimp only at hsnd
          rw [hsnd]
          exact shortInv_chatRest _ now st h

lemma shortInv_delete (tid now : Nat) (st : St)
    (h : ShortInv st) : ShortInv (delete_task tid now st).2 := by
  unfold delete_task
  cases hf : find_task_index tid st.tasks with
  | none => exact h
  | some i =>
    dsimp only
    cases hg : st.tasks[i]? with
    | none => exact h
    | some removed => exact shortInv_snapshot _ _ _ (shortInv_renumber _)

lemma shortInv_delete_all (confirm : Option String) (now : Nat) (st : St)
    (h : ShortInv st) : ShortInv (delete_all_tasks confirm now st).2 := by
  unfold delete_all_tasks
  by_cases hc : parse_bool confirm ≠ some true
  · rw [if_pos hc]; exact h
  · rw [if_neg hc]
    by_cases hz : st.tasks.length = 0
    · rw [if_pos hz]; exact h
    · rw [if_neg hz]
      exact shortInv_snapshot _ _ _ (shortInv_renumber _)

lemma shortInv_restoreItems (items : List Task) (now : Nat) (st : St) :
    ShortInv (restoreItems items now st).2 :=
  shortInv_renumber _

lemma shortInv_undo_restore (token : Option Nat) (items : Option (List Task))
    (now : Nat) (st : St) (h : ShortInv st) :
    ShortInv (undo_restore token items now st).2 := by
  unfold undo_restore
  have hclean : ShortInv (cleanup_undo_buffers now st) := h
  cases token with
  | some tok =>
    dsimp only
    cases hp : popUndo tok (cleanup_undo_buffers now st).undo with
    | none => exact hclean
    | some p =>
      dsimp only
      by_cases hi : p.1.items = []
      · rw [if_pos hi]; exact hclean
      · rw [if_neg hi]
        exact shortInv_restoreItems _ _ _
  | none =>
    dsimp only
    cases items with
    | some its =>
      dsimp only
      by_cases hi : its = []
      · rw [if_pos hi]; exact hclean
      · rw [if_neg hi]
        exact shortInv_restoreItems _ _ _
    | none => exact hclean

lemma shortInv_applyOp (op : Op) (now : Nat) (st : St)
    (h : ShortInv st) : ShortInv (applyOp op now st) := by
  cases op with
  | restCreate title d due => exact shortInv_create title d due now st h
  | restDelete tid => exact shortInv_delete tid now st h
  | restDeleteAll c => exact shortInv_delete_all c now st h
  | chatMsg m => exact shortInv_chat m now st h
  | restore tok its => exact shortInv_undo_restore tok its now st h

lemma shortInv_applyOps (ops : List (Op × Nat)) (st : St)
    (h : ShortInv st) : ShortInv (applyOps ops st) := by
  induction ops generalizing st with
  | nil => exact h
  | cons p ps ih => exact ih _ (shortInv_applyOp p.1 p.2 st h)

/-- Scope of the claimed C1 invariant that actually holds: over the typed
operation model — REST create, REST delete, REST delete-all, chat messages
(covering chat add and chat delete) and undo restore whose payload is a
well-formed task record, which is every token-based restore and every
items-based restore of a well-formed body — all sequences from the empty
store keep the stored `short_id` values exactly `{1..N}` for the current
task count `N`, with no duplicates or gaps.  The claim itself nevertheless
FAILS on the source, because the items form of the restore endpoint also
accepts raw JSON the source never validates: see
`shortIds_dense_code_bug`. -/
theorem shortIds_dense_typed (ops : List (Op × Nat)) :
    ((applyOps ops initState).tasks.map Task.short_id).Nodup ∧
    ∀ k, k ∈ (applyOps ops initState).tasks.map Task.short_id ↔
      1 ≤ k ∧ k ≤ (applyOps ops initState).tasks.length := by
  have h := shortInv_applyOps ops initState shortInv_initState
  rw [h.1]
  refine ⟨List.nodup_range' _ _, fun k => ?_⟩
  rw [List.mem_range'_1]
  omega

/-- C1.  The short-id density claim fails on the source; this is the
code-bug demonstration.  From the empty store: one REST create; then
`POST /v1/undo/restore` with `items = [{"title": "x", "created_at": 123}]`
appends the posted record verbatim (`short_id = None` from the absent key)
and then `renumber_short_ids` raises `TypeError` comparing the integer
`123` with the first task's RFC3339 string — a 500 with the store already
mutated and the counter untouched.  The next REST create then completes
normally and leaves three stored tasks whose `short_id` column is
`[1, None, 2]`: the value `3 = N` is missing (and a `None` sits where an
int belongs), so after a completing operation the short ids are not
`{1..N}`, contradicting the claim and the spec's stronger promise that no
partial state survives a failing request. -/
theorem shortIds_dense_code_bug :
    (undo_restore_items_raw [badRestoreItem] "2025-01-01T00:01:00Z" bugSt1).1
        = .typeError ∧
    bugSt2.nextShortId = 2 ∧
    bugSt3.tasks.length = 3 ∧
    bugSt3.tasks.map RawTask.short_id = [.n 1, .null, .n 2] ∧
    ¬ ∃ t ∈ bugSt3.tasks, t.short_id = JScalar.n 3 := by
  decide

/-! ## Lemmas: the undo buffer -/

lemma popUndo_none_iff (tok : Nat) (l : List UndoEntry) :
    popUndo tok l = none ↔ ∀ e ∈ l, e.token ≠ tok := by
  induction l with
  | nil => simp [popUndo]
  | cons x xs ih =>
    unfold popUndo
    by_cases hx : x.token = tok
    · rw [if_pos hx]
      simp [hx]
    · rw [if_neg hx]
      cases hp : popUndo tok xs with
      | some p =>
        obtain ⟨f, r⟩ := p
        dsimp only
        constructor
        · intro hc; exact absurd hc (by simp)
        · intro hall
          have hnone : popUndo tok xs = none :=
            ih.mpr (fun e he => hall e (List.mem_cons_of_mem x he))
          rw [hp] at hnone
          exact absurd hnone (by simp)
      | none =>
        dsimp only
        constructor
        · intro _ e he
          rcases List.mem_cons.mp he with h1 | h2
          · rw [h1]; exact hx
          · exact (ih.mp hp) e h2
        · intro _; rfl

lemma popUndo_filter (tok : Nat) (l : List UndoEntry) (e : UndoEntry) (rest : List UndoEntry)
    (h : popUndo tok l = some (e, rest)) :
    e.token = tok ∧
    l.filter (fun x => x.token == tok)
      = e :: rest.filter (fun x => x.token == tok) := by
  induction l generalizing e rest with
  | nil => simp [popUndo] at h
  | cons x xs ih =>
    unfold popUndo at h
    by_cases hx : x.token = tok
    · rw [if_pos hx] at h
      simp only [Option.some.injEq, Prod.mk.injEq] at h
      obtain ⟨he, hrest⟩ := h
      subst he
      subst hrest
      exact ⟨hx, by simp [List.filter_cons, hx]⟩
    · rw [if_neg hx] at h
      cases hp : popUndo tok xs with
      | none => rw [hp] at h; exact absurd h (by simp)
      | some p =>
        obtain ⟨f, r⟩ := p
        rw [hp] at h
        dsimp only at h
        simp only [Option.some.injEq, Prod.mk.injEq] at h
        obtain ⟨hfe, hrest⟩ := h
        obtain ⟨h1, h2⟩ := ih f r hp
        refine ⟨by rw [← hfe]; exact h1, ?_⟩
        rw [← hrest, ← hfe]
        have hxb : (x.token == tok) = false := by simpa using hx
        simp only [List.filter_cons, hxb, Bool.false_eq_true, if_false]
        exact h2

lemma popUndo_append_last (tok : Nat) (l : List UndoEntry) (e : UndoEntry)
    (hl : ∀ x ∈ l, x.token ≠ tok) (he : e.token = tok) :
    popUndo tok (l ++ [e]) = some (e, l) := by
  induction l with
  | nil => simp [popUndo, he]
  | cons x xs ih =>
    have hx : x.token ≠ tok := hl x (List.mem_cons_self x xs)
    simp only [List.cons_append]
    unfold popUndo
    rw [if_neg hx, ih (fun y hy => hl y (List.mem_cons_of_mem x hy))]

lemma foldl_restoreStep_undo (existing : List Nat) (now : Nat) :
    ∀ (items : List Task) (st : St),
      (items.foldl (restoreStep existing now) st).undo = st.undo := by
  intro items
  induction items with
  | nil => intro st; rfl
  | cons it its ih =>
    intro st
    rw [List.foldl_cons, ih]
    rfl

lemma restoreItems_undo (items : List Task) (now : Nat) (st : St) :
    (restoreItems items now st).2.undo = st.undo := by
  show (renumber_short_ids _).undo = st.undo
  show (items.foldl (restoreStep _ now) st).undo = st.undo
  exact foldl_restoreStep_undo _ now items st

lemma cleanup_tasks (now : Nat) (st : St) :
    (cleanup_undo_buffers now st).tasks = st.tasks := rfl

/-! ## Claim C2: delete then restore round-trips the task's content -/

/-- The content of a task apart from its identity and display ordinal. -/
def fieldsOf (t : Task) : String × String × Option String × Bool :=
  (t.title, t.description, t.due_date, t.completed)

/-- Renumbering permutes the tasks and touches only `short_id`, so every
member's content survives. -/
lemma renumber_mem_fields (st : St) (x : Task) (hx : x ∈ st.tasks) :
    ∃ y ∈ (renumber_short_ids st).tasks, fieldsOf y = fieldsOf x := by
  have hperm := stableSort_perm (fun a b => decide (a.created_at ≤ b.created_at)) st.tasks
  have hx' : x ∈ stableSort (fun a b => decide (a.created_at ≤ b.created_at)) st.tasks :=
    hperm.mem_iff.mpr hx
  have hmap := map_assignShortIds fieldsOf (fun t i => rfl)
    (stableSort (fun a b => decide (a.created_at ≤ b.created_at)) st.tasks)
  have hmem : fieldsOf x
      ∈ (assignShortIds (stableSort (fun a b => decide (a.created_at ≤ b.created_at)) st.tasks)).map
          fieldsOf := by
    rw [hmap]
    exact List.mem_map_of_mem fieldsOf hx'
  obtain ⟨y, hy, hfy⟩ := List.mem_map.mp hmem
  exact ⟨y, hy, hfy⟩

/-- The record appended by one restore step keeps the item's content
(title via the `or`-default, which collapses to the title itself whenever
the title is nonempty or the description is empty too). -/
lemma restoreStep_mem (existing : List Nat) (now : Nat) (s : St) (it : Task) :
    ∃ r ∈ (restoreStep existing now s it).tasks,
      r.title = (if it.title ≠ "" then it.title
                 else if it.description ≠ "" then it.description else "") ∧
      r.description = it.description ∧ r.due_date = it.due_date ∧
      r.completed = it.completed := by
  refine ⟨_, List.mem_append_right _ (List.mem_singleton_self _), rfl, rfl, rfl, rfl⟩

/-- Restoring a single snapshot item leaves a task with that item's content
in the store. -/
lemma restoreItems_single_mem (now : Nat) (s : St) (it : Task) :
    ∃ y ∈ (restoreItems [it] now s).2.tasks,
      y.title = (if it.title ≠ "" then it.title
                 else if it.description ≠ "" then it.description else "") ∧
      y.description = it.description ∧ y.due_date = it.due_date ∧
      y.completed = it.completed := by
  obtain ⟨r, hr, h1, h2, h3, h4⟩ := restoreStep_mem (s.tasks.map (·.id)) now s it
  obtain ⟨y, hy, hfy⟩ :=
    renumber_mem_fields (restoreStep (s.tasks.map (·.id)) now s it) r hr
  simp only [fieldsOf, Prod.mk.injEq] at hfy
  exact ⟨y, hy, hfy.1.trans h1, hfy.2.1.trans h2, hfy.2.2.1.trans h3, hfy.2.2.2.trans h4⟩

/-- The title/description discipline every store operation maintains: a
stored task with an empty title also has an empty description.  REST create
validates a nonempty title, chat add creates tasks with empty descriptions,
and the restore default `title or description or empty` is empty only when
both fields are. -/
def TitleOk (t : Task) : Prop := t.title ≠ "" ∨ t.description = ""

def ListTitleOk (l : List Task) : Prop := ∀ t ∈ l, TitleOk t

lemma titleOk_congr {x y : Task} (h : fieldsOf x = fieldsOf y) (hx : TitleOk x) :
    TitleOk y := by
  simp only [fieldsOf, Prod.mk.injEq] at h
  unfold TitleOk at hx ⊢
  rw [← h.1, ← h.2.1]
  exact hx

lemma listTitleOk_renumber (st : St) (h : ListTitleOk st.tasks) :
    ListTitleOk (renumber_short_ids st).tasks := by
  intro y hy
  rw [renumber_tasks_eq] at hy
  have hmap := map_assignShortIds fieldsOf (fun t i => rfl)
    (stableSort (fun a b => decide (a.created_at ≤ b.created_at)) st.tasks)
  have hyf : fieldsOf y
      ∈ (assignShortIds (stableSort (fun a b => decide (a.created_at ≤ b.created_at)) st.tasks)).map
          fieldsOf :=
    List.mem_map_of_mem fieldsOf hy
  rw [hmap] at hyf
  obtain ⟨x, hx, hxy⟩ := List.mem_map.mp hyf
  exact titleOk_congr hxy (h x ((stableSort_perm _ st.tasks).mem_iff.mp hx))

lemma listTitleOk_of_sublist {l1 l2 : List Task} (hs : List.Sublist l1 l2)
    (h : ListTitleOk l2) : ListTitleOk l1 :=
  fun t ht => h t (hs.subset ht)

lemma listTitleOk_set_mark (l : List Task) (i : Nat) (t u : Task)
    (hget : l[i]? = some t) (htit : u.title = t.title) (hdes : u.description = t.description)
    (h : ListTitleOk l) : ListTitleOk (l.set i u) := by
  intro y hy
  rcases List.mem_or_eq_of_mem_set hy with h1 | h1
  · exact h y h1
  · subst h1
    have hp := h t (List.getElem?_mem hget)
    unfold TitleOk at hp ⊢
    rw [htit, hdes]
    exact hp

lemma listTitleOk_markShort (sid now : Nat) (ts ts2 : List Task) (u : Task)
    (h : markShort sid now ts = some (ts2, u)) (hok : ListTitleOk ts) :
    ListTitleOk ts2 := by
  unfold markShort at h
  cases hf : find_task_index_by_short sid ts with
  | none => rw [hf] at h; exact absurd h (by simp)
  | some i =>
    rw [hf] at h
    dsimp only at h
    cases hg : ts[i]? with
    | none => rw [hg] at h; exact absurd h (by simp)
    | some t =>
      rw [hg] at h
      dsimp only at h
      simp only [Option.some.injEq, Prod.mk.injEq] at h
      rw [← h.1]
      exact listTitleOk_set_mark ts i t _ hg rfl rfl hok

lemma listTitleOk_markIds (ids : List Nat) (now : Nat) (ts : List Task)
    (hok : ListTitleOk ts) : ListTitleOk (markIds ids now ts).1 := by
  induction ids generalizing ts with
  | nil => exact hok
  | cons sid rest ih =>
    rw [markIds]
    cases hm : markShort sid now ts with
    | none => dsimp only; exact ih ts hok
    | some p =>
      dsimp only
      exact ih p.1 (listTitleOk_markShort sid now ts p.1 p.2 (by rw [hm]) hok)

/-- The state-level invariant. -/
def TitleInv (st : St) : Prop := ListTitleOk st.tasks

lemma titleInv_create (title d : String) (due : Option String) (now : Nat) (st : St)
    (h : TitleInv st) : TitleInv (create_task title d due now st).2 := by
  unfold create_task
  by_cases hv : 1 ≤ (trimWs title.data).length ∧ (trimWs title.data).length ≤ 200
  · rw [if_pos hv]
    intro y hy
    rcases List.mem_append.mp hy with h1 | h1
    · exact h y h1
    · rw [List.mem_singleton] at h1
      subst h1
      left
      show String.mk (trimWs title.data) ≠ ""
      intro hc
      have hnil : trimWs title.data = [] := by
        have hdata := congrArg String.data hc
        exact hdata
      rw [hnil] at hv
      simp at hv
  · rw [if_neg hv]
    exact h

lemma titleInv_addFold (now : Nat) :
    ∀ (items : List Chars) (acc : List Task × St),
      ListTitleOk acc.2.tasks → ListTitleOk (items.foldl (addStep now) acc).2.tasks := by
  intro items
  induction items with
  | nil => intro acc h; exact h
  | cons it its ih =>
    intro acc h
    rw [List.foldl_cons]
    apply ih
    intro y hy
    rcases List.mem_append.mp hy with h1 | h1
    · exact h y h1
    · rw [List.mem_singleton] at h1
      subst h1
      right
      rfl

lemma titleInv_execAdd (verb : String) (body : Chars) (now : Nat) (st : St)
    (h : TitleInv st) : TitleInv (execAdd verb body now st).2 := by
  unfold execAdd
  cases hi : addItems verb body with
  | nil => exact h
  | cons a as =>
    exact listTitleOk_renumber _ (titleInv_addFold now (a :: as) ([], st) h)

lemma titleInv_execRemove (body : Chars) (now : Nat) (st : St)
    (h : TitleInv st) : TitleInv (execRemove body now st).2 := by
  unfold execRemove
  by_cases hall : anyWordCI ["all", "every", "everything"] (trimWs body) = true
  · rw [if_pos hall]
    by_cases hz : st.tasks.length = 0
    · rw [if_pos hz]; exact h
    · rw [if_neg hz]
      exact listTitleOk_renumber _ (fun t ht => absurd ht (List.not_mem_nil t))
  · rw [if_neg hall]
    cases hn : numericRef (trimWs body) with
    | some sid =>
      dsimp only
      cases hf : find_task_index_by_short sid st.tasks with
      | none => exact h
      | some i =>
        dsimp only
        cases hg : st.tasks[i]? with
        | none => exact h
        | some deleted =>
          exact listTitleOk_renumber _
            (listTitleOk_of_sublist (List.eraseIdx_sublist st.tasks i) h)
    | none =>
      dsimp only
      cases hm : nameMatches (trimWs body) st.tasks with
      | nil => exact h
      | cons m ms =>
        cases ms with
        | nil =>
          dsimp only
          cases hf : find_task_index m.id st.tasks with
          | none => exact h
          | some i =>
            dsimp only
            cases hg : st.tasks[i]? with
            | none => exact h
            | some deleted =>
              exact listTitleOk_renumber _
                (listTitleOk_of_sublist (List.eraseIdx_sublist st.tasks i) h)
        | cons m2 ms2 => exact h

lemma titleInv_execComplete (target : Chars) (now : Nat) (st : St)
    (h : TitleInv st) : TitleInv (execComplete target now st).2 := by
  unfold execComplete
  by_cases hall : anyWordCI ["all"] target = true
  · rw [if_pos hall]
    by_cases hz : (st.tasks.filter (fun t => !t.completed)).length = 0
    · rw [if_pos hz]; exact h
    · rw [if_neg hz]
      intro y hy
      obtain ⟨x, hx, hxy⟩ := List.mem_map.mp hy
      have hp := h x hx
      unfold TitleOk at hp ⊢
      rw [← hxy]
      by_cases hc : x.completed <;> simp [hc] <;> exact hp
  · rw [if_neg hall]
    cases hids : idsOf target with
    | nil =>
      dsimp only
      cases hm : nameMatches target st.tasks with
      | nil => exact h
      | cons m ms =>
        cases ms with
        | nil =>
          dsimp only
          cases hf : find_task_index m.id st.tasks with
          | none => exact h
          | some i =>
            dsimp only
            cases hg : st.tasks[i]? with
            | none => exact h
            | some t =>
              exact listTitleOk_set_mark st.tasks i t _ hg rfl rfl h
        | cons m2 ms2 => exact h
    | cons i0 irest =>
      dsimp only
      exact listTitleOk_markIds (i0 :: irest) now st.tasks h

lemma titleInv_chatRest (text : Chars) (now : Nat) (st : St)
    (h : TitleInv st) : TitleInv (chatRest text now st).2 := by
  unfold chatRest
  cases hr : matchVerbBody removeVerbs text with
  | some p =>
    dsimp only
    exact titleInv_execRemove p.2 now st h
  | none =>
    dsimp only
    cases hc : matchComplete text with
    | some target => exact titleInv_execComplete target now st h
    | none => exact h

lemma titleInv_chat (msg : String) (now : Nat) (st : St)
    (h : TitleInv st) : TitleInv (chat msg now st).2 := by
  unfold chat
  by_cases hne : trimWs msg.data = []
  · rw [if_pos hne]; exact h
  · rw [if_neg hne]
    cases ha : matchVerbBody addVerbs (trimWs msg.data) with
    | none => exact titleInv_chatRest _ now st h
    | some p =>
      dsimp only
      cases he : execAdd p.1 p.2 now st with
      | mk r st2 =>
        cases r with
        | some added =>
          dsimp only
          have hInv := titleInv_execAdd p.1 p.2 now st h
          rw [he] at hInv
          exact hInv
        | none =>
          dsimp only
          have hsnd := execAdd_none_snd p.1 p.2 now st (by rw [he])
          rw [he] at hsnd
          dsimp only at hsnd
          rw [hsnd]
          exact titleInv_chatRest _ now st h

lemma titleInv_delete (tid now : Nat) (st : St)
    (h : TitleInv st) : TitleInv (delete_task tid now st).2 := by
  unfold delete_task
  cases hf : find_task_index tid st.tasks with
  | none => exact h
  | some i =>
    dsimp only
    cases hg : st.tasks[i]? with
    | none => exact h
    | some removed =>
      exact listTitleOk_renumber _
        (listTitleOk_of_sublist (List.eraseIdx_sublist st.tasks i) h)

lemma titleInv_delete_all (confirm : Option String) (now : Nat) (st : St)
    (h : TitleInv st) : TitleInv (delete_all_tasks confirm now st).2 := by
  unfold delete_all_tasks
  by_cases hc : parse_bool confirm ≠ some true
  · rw [if_pos hc]; exact h
  · rw [if_neg hc]
    by_cases hz : st.tasks.length = 0
    · rw [if_pos hz]; exact h
    · rw [if_neg hz]
      exact listTitleOk_renumber _ (fun t ht => absurd ht (List.not_mem_nil t))

lemma titleInv_restoreFold (existing : List Nat) (now : Nat) :
    ∀ (items : List Task) (s : St),
      ListTitleOk s.tasks → ListTitleOk (items.foldl (restoreStep existing now) s).tasks := by
  intro items
  induction items with
  | nil => intro s h; exact h
  | cons it its ih =>
    intro s h
    rw [List.foldl_cons]
    apply ih
    intro y hy
    rcases List.mem_append.mp hy with h1 | h1
    · exact h y h1
    · rw [List.mem_singleton] at h1
      subst h1
      by_cases hT : it.title ≠ ""
      · left
        show (if it.title ≠ "" then it.title
              else if it.description ≠ "" then it.description else "") ≠ ""
        rw [if_pos hT]
        exact hT
      · by_cases hD : it.description ≠ ""
        · left
          show (if it.title ≠ "" then it.title
                else if it.description ≠ "" then it.description else "") ≠ ""
          rw [if_neg hT, if_pos hD]
          exact hD
        · right
          show it.description = ""
          simpa using hD

lemma titleInv_restoreItems (items : List Task) (now : Nat) (st : St)
    (h : TitleInv st) : TitleInv (restoreItems items now st).2 :=
  listTitleOk_renumber _ (titleInv_restoreFold (st.tasks.map (·.id)) now items st h)

lemma titleInv_undo_restore (token : Option Nat) (items : Option (List Task))
    (now : Nat) (st : St) (h : TitleInv st) :
    TitleInv (undo_restore token items now st).2 := by
  unfold undo_restore
  have hclean : TitleInv (cleanup_undo_buffers now st) := h
  cases token with
  | some tok =>
    dsimp only
    cases hp : popUndo tok (cleanup_undo_buffers now st).undo with
    | none => exact hclean
    | some p =>
      dsimp only
      by_cases hi : p.1.items = []
      · rw [if_pos hi]; exact hclean
      · rw [if_neg hi]
        exact titleInv_restoreItems _ _ _ hclean
  | none =>
    dsimp only
    cases items with
    | some its =>
      dsimp only
      by_cases hi : its = []
      · rw [if_pos hi]; exact hclean
      · rw [if_neg hi]
        exact titleInv_restoreItems _ _ _ hclean
    | none => exact hclean

lemma titleInv_applyOp (op : Op) (now : Nat) (st : St)
    (h : TitleInv st) : TitleInv (applyOp op now st) := by
  cases op with
  | restCreate title d due => exact titleInv_create title d due now st h
  | restDelete tid => exact titleInv_delete tid now st h
  | restDeleteAll c => exact titleInv_delete_all c now st h
  | chatMsg m => exact titleInv_chat m now st h
  | restore tok its => exact titleInv_undo_restore tok its now st h

/-- Every reachable store satisfies the title/description discipline; this
discharges the title hypothesis of the C2 round-trip theorem for every task
the API can ever hold. -/
lemma titleInv_reachable (ops : List (Op × Nat)) :
    ∀ t ∈ (applyOps ops initState).tasks, t.title ≠ "" ∨ t.description = "" := by
  have h : TitleInv (applyOps ops initState) := by
    induction ops using List.reverseRecOn with
    | nil => intro t ht; exact absurd ht (List.not_mem_nil t)
    | append_singleton ps p ih =>
      rw [applyOps, List.foldl_append]
      exact titleInv_applyOp p.1 p.2 _ ih
  exact h

/-- C2.  Deleting a stored task via `DELETE /v1/tasks/{id}` and posting the
returned undo token to `POST /v1/undo/restore` (within the expiry window,
with the fresh token not already present — which the `uuid4` draw
guarantees) leaves the store containing a task with the same title,
description, due_date and completed flag.  The title hypothesis holds for
every task the API itself can store: a task with an empty title (reachable
only through quote-stripping corner cases of the chat add branch) always
has an empty description as well. -/
theorem delete_then_restore_roundtrip (st : St) (t : Task) (i now₁ now₂ : Nat)
    (hfind : find_task_index t.id st.tasks = some i)
    (hget : st.tasks[i]? = some t)
    (htitle : t.title ≠ "" ∨ t.description = "")
    (hfresh : ∀ e ∈ st.undo, e.token ≠ st.nextTok)
    (htime : now₂ ≤ now₁ + UNDO_EXPIRY_SECONDS) :
    ∃ tok, (delete_task t.id now₁ st).1 = .ok (t.short_id, tok) ∧
      (undo_restore (some tok) none now₂ (delete_task t.id now₁ st).2).1 = .restored 1 ∧
      ∃ t' ∈ (undo_restore (some tok) none now₂ (delete_task t.id now₁ st).2).2.tasks,
        t'.title = t.title ∧ t'.description = t.description ∧
        t'.due_date = t.due_date ∧ t'.completed = t.completed := by
  have hdel : delete_task t.id now₁ st
      = (.ok (t.short_id, st.nextTok),
         { tasks := (renumber_short_ids { st with tasks := st.tasks.eraseIdx i }).tasks,
           nextShortId := (renumber_short_ids { st with tasks := st.tasks.eraseIdx i }).nextShortId,
           undo := st.undo ++ [⟨st.nextTok, now₁, [t]⟩],
           nextTok := st.nextTok + 1,
           nextUuid := st.nextUuid }) := by
    unfold delete_task
    rw [hfind]
    dsimp only
    rw [hget]
    rfl
  refine ⟨st.nextTok, by rw [hdel], ?_⟩
  rw [hdel]
  dsimp only
  have hkeep : (fun e : UndoEntry => decide (now₂ ≤ e.created + UNDO_EXPIRY_SECONDS))
      (⟨st.nextTok, now₁, [t]⟩ : UndoEntry) = true := by
    simpa using htime
  have hclean :
      (st.undo ++ [(⟨st.nextTok, now₁, [t]⟩ : UndoEntry)]).filter
          (fun e => decide (now₂ ≤ e.created + UNDO_EXPIRY_SECONDS))
        = st.undo.filter (fun e => decide (now₂ ≤ e.created + UNDO_EXPIRY_SECONDS))
            ++ [⟨st.nextTok, now₁, [t]⟩] := by
    rw [List.filter_append]
    simp [hkeep]
  have hpop :
      popUndo st.nextTok
          (st.undo.filter (fun e => decide (now₂ ≤ e.created + UNDO_EXPIRY_SECONDS))
            ++ [⟨st.nextTok, now₁, [t]⟩])
        = some (⟨st.nextTok, now₁, [t]⟩,
            st.undo.filter (fun e => decide (now₂ ≤ e.created + UNDO_EXPIRY_SECONDS))) := by
    refine popUndo_append_last _ _ _ ?_ rfl
    intro x hx
    exact hfresh x (List.mem_filter.mp hx).1
  unfold undo_restore cleanup_undo_buffers
  dsimp only
  rw [hclean, hpop]
  dsimp only
  rw [if_neg (by simp : ¬([t] : List Task) = [])]
  refine ⟨rfl, ?_⟩
  obtain ⟨y, hy, h1, h2, h3, h4⟩ := restoreItems_single_mem now₂ _ t
  refine ⟨y, hy, ?_, h2, h3, h4⟩
  rw [h1]
  rcases htitle with hT | hD
  · rw [if_pos hT]
  · by_cases hT : t.title ≠ ""
    · rw [if_pos hT]
    · push_neg at hT
      rw [if_neg (by simp [hT]), if_neg (by simp [hD]), hT]

/-- A concrete task and store used to instantiate the hypotheses of the
round-trip and undo theorems. -/
def cexTask : Task :=
  { id := 5, short_id := 1, title := "milk", description := "d",
    due_date := some "2030-01-01T00:00:00Z", completed := true,
    created_at := 50, updated_at := 50 }

def cexSt : St :=
  { tasks := [cexTask], nextShortId := 2, undo := [], nextTok := 7, nextUuid := 9 }

/-- Witness for C2 at a concrete one-task store. -/
theorem delete_then_restore_roundtrip_witness :
    ∃ tok, (delete_task cexTask.id 100 cexSt).1 = .ok (cexTask.short_id, tok) ∧
      (undo_restore (some tok) none 200 (delete_task cexTask.id 100 cexSt).2).1
        = .restored 1 ∧
      ∃ t' ∈ (undo_restore (some tok) none 200 (delete_task cexTask.id 100 cexSt).2).2.tasks,
        t'.title = cexTask.title ∧ t'.description = cexTask.description ∧
        t'.due_date = cexTask.due_date ∧ t'.completed = cexTask.completed :=
  delete_then_restore_roundtrip cexSt cexTask 0 100 200 rfl rfl
    (Or.inl (by decide)) (by simp [cexSt]) (by decide)

/-! ## Claim C3: undo tokens are single-use -/

/-- C3.  A token returned by a delete is single-use: once a restore with it
succeeds, a second restore with the same token answers 404 and leaves the
task store untouched.  The hypothesis that the token keys at most one
buffer entry is what the `uuid4` freshness of `snapshot_undo_buffer`
guarantees. -/
theorem undo_token_single_use (tok now₁ now₂ n : Nat) (st : St)
    (huniq : (st.undo.filter (fun e => e.token == tok)).length ≤ 1)
    (hfirst : (undo_restore (some tok) none now₁ st).1 = .restored n) :
    (undo_restore (some tok) none now₂ (undo_restore (some tok) none now₁ st).2).1
        = .err404 ∧
    (undo_restore (some tok) none now₂ (undo_restore (some tok) none now₁ st).2).2.tasks
        = (undo_restore (some tok) none now₁ st).2.tasks := by
  cases hp : popUndo tok (cleanup_undo_buffers now₁ st).undo with
  | none =>
    exfalso
    unfold undo_restore at hfirst
    dsimp only at hfirst
    rw [hp] at hfirst
    exact absurd hfirst (by simp)
  | some p =>
    obtain ⟨e, rest⟩ := p
    by_cases hi : e.items = []
    · exfalso
      unfold undo_restore at hfirst
      dsimp only at hfirst
      rw [hp] at hfirst
      dsimp only at hfirst
      rw [if_pos hi] at hfirst
      exact absurd hfirst (by simp)
    · have h1 : undo_restore (some tok) none now₁ st
          = restoreItems e.items now₁ { cleanup_undo_buffers now₁ st with undo := rest } := by
        unfold undo_restore
        dsimp only
        rw [hp]
        dsimp only
        rw [if_neg hi]
      have hund : (undo_restore (some tok) none now₁ st).2.undo = rest := by
        rw [h1]
        exact restoreItems_undo _ _ _
      have hcnt := popUndo_filter tok _ e rest hp
      have hsub : ((cleanup_undo_buffers now₁ st).undo.filter (fun x => x.token == tok)).length
          ≤ (st.undo.filter (fun x => x.token == tok)).length :=
        List.Sublist.length_le (List.Sublist.filter _ (List.filter_sublist _))
      have hlen : ((cleanup_undo_buffers now₁ st).undo.filter (fun x => x.token == tok)).length
          = (rest.filter (fun x => x.token == tok)).length + 1 := by
        rw [hcnt.2]
        rfl
      have hrest0 : rest.filter (fun x => x.token == tok) = [] := by
        rw [← List.length_eq_zero]
        omega
      have hnone : ∀ x ∈ rest, x.token ≠ tok := by
        intro x hx
        have hq := List.filter_eq_nil_iff.mp hrest0 x hx
        simpa using hq
      have hp2 : popUndo tok
          (cleanup_undo_buffers now₂ (undo_restore (some tok) none now₁ st).2).undo = none := by
        apply (popUndo_none_iff _ _).mpr
        intro x hx
        have hxmem : x ∈ ((undo_restore (some tok) none now₁ st).2.undo).filter
            (fun e => decide (now₂ ≤ e.created + UNDO_EXPIRY_SECONDS)) := hx
        rw [hund] at hxmem
        exact hnone x (List.mem_filter.mp hxmem).1
      constructor
      · conv_lhs => rw [undo_restore]
        dsimp only
        rw [hp2]
      · conv_lhs => rw [undo_restore]
        dsimp only
        rw [hp2]
        rfl

/-- A store whose undo buffer holds a single one-item snapshot under
token 4, created at epoch second 10. -/
def undoSt : St :=
  { tasks := [], nextShortId := 1, undo := [⟨4, 10, [cexTask]⟩],
    nextTok := 5, nextUuid := 1 }

/-- Witness for C3: consuming token 4 twice on `undoSt`. -/
theorem undo_token_single_use_witness :
    (undo_restore (some 4) none 30 (undo_restore (some 4) none 20 undoSt).2).1
        = .err404 ∧
    (undo_restore (some 4) none 30 (undo_restore (some 4) none 20 undoSt).2).2.tasks
        = (undo_restore (some 4) none 20 undoSt).2.tasks :=
  undo_token_single_use 4 20 30 1 undoSt (by decide) (by decide)

/-! ## Claim C4: expired undo tokens are rejected -/

/-- C4.  A token whose snapshot is older than the 5-minute expiry window at
restore time is answered with 404 — even if never consumed — and the task
store is unchanged.  (The hypothesis quantifies over every entry carrying
the token, which under token uniqueness is just the entry itself.) -/
theorem undo_token_expired_rejected (tok now : Nat) (st : St) (e : UndoEntry)
    (hmem : e ∈ st.undo) (htok : e.token = tok)
    (hexp : ∀ f ∈ st.undo, f.token = tok → f.created + UNDO_EXPIRY_SECONDS < now) :
    (undo_restore (some tok) none now st).1 = .err404 ∧
    (undo_restore (some tok) none now st).2.tasks = st.tasks := by
  have hp : popUndo tok (cleanup_undo_buffers now st).undo = none := by
    apply (popUndo_none_iff _ _).mpr
    intro x hx
    have hx2 : x ∈ st.undo.filter
        (fun e => decide (now ≤ e.created + UNDO_EXPIRY_SECONDS)) := hx
    obtain ⟨hxm, hxk⟩ := List.mem_filter.mp hx2
    intro hxt
    have hlt := hexp x hxm hxt
    simp only [decide_eq_true_eq] at hxk
    omega
  constructor
  · unfold undo_restore
    dsimp only
    rw [hp]
  · unfold undo_restore
    dsimp only
    rw [hp]
    rfl

/-- Witness for C4: token 4 of `undoSt` (created at 10) presented at epoch
second 400 > 10 + 300. -/
theorem undo_token_expired_rejected_witness :
    (undo_restore (some 4) none 400 undoSt).1 = .err404 ∧
    (undo_restore (some 4) none 400 undoSt).2.tasks = undoSt.tasks :=
  undo_token_expired_rejected 4 400 undoSt ⟨4, 10, [cexTask]⟩
    (by decide) rfl (by decide)

/-! ## Claims C5 and C6: the chat add branch -/

/-- Renumbering permutes the title column and changes no title. -/
lemma renumber_titles_perm (st : St) :
    List.Perm ((renumber_short_ids st).tasks.map Task.title) (st.tasks.map Task.title) := by
  rw [renumber_tasks_eq, map_assignShortIds Task.title (fun t i => rfl)]
  exact (stableSort_perm _ st.tasks).map Task.title

/-- The add loop appends one task per item, titled with the trimmed item,
both in the response accumulator and in the store. -/
lemma addFold_titles (now : Nat) :
    ∀ (items : List Chars) (acc : List Task × St),
      (items.foldl (addStep now) acc).1.map Task.title
          = acc.1.map Task.title ++ items.map (fun i => String.mk (trimWs i)) ∧
      (items.foldl (addStep now) acc).2.tasks.map Task.title
          = acc.2.tasks.map Task.title ++ items.map (fun i => String.mk (trimWs i)) := by
  intro items
  induction items with
  | nil => intro acc; simp
  | cons it its ih =>
    intro acc
    rw [List.foldl_cons]
    obtain ⟨ih1, ih2⟩ := ih (addStep now acc it)
    constructor
    · rw [ih1]
      show (acc.1 ++ [(build_task (String.mk it) "" none now acc.2).1]).map Task.title
            ++ _ = _
      rw [List.map_append]
      simp [build_task]
    · rw [ih2]
      show (acc.2.tasks ++ [(build_task (String.mk it) "" none now acc.2).1]).map Task.title
            ++ _ = _
      rw [List.map_append]
      simp [build_task]

/-- C5.  `POST /v1/chat` with message `"add buy milk"` creates exactly one
task and its title is `"buy milk"`: the leading-verb stripping applies only
to a repeat of the matched verb `add`, so the embedded `buy` survives. -/
theorem chat_add_buy_milk (now : Nat) (st : St) :
    (∃ ts, (chat "add buy milk" now st).1 = .added ts ∧
       ts.map Task.title = ["buy milk"]) ∧
    List.Perm ((chat "add buy milk" now st).2.tasks.map Task.title)
      (st.tasks.map Task.title ++ ["buy milk"]) := by
  have hchat : chat "add buy milk" now st
      = (.added (("buy milk".data :: []).foldl (addStep now) ([], st)).1,
         renumber_short_ids (("buy milk".data :: []).foldl (addStep now) ([], st)).2) := rfl
  obtain ⟨hresp, hstore⟩ := addFold_titles now ("buy milk".data :: []) ([], st)
  constructor
  · refine ⟨_, by rw [hchat], ?_⟩
    rw [hresp]
    rfl
  · rw [hchat]
    refine List.Perm.trans (renumber_titles_perm _) ?_
    rw [hstore]
    exact List.Perm.refl _

/-- C6.  `POST /v1/chat` with message `"add milk, eggs, bread"` splits the
comma-separated body into items and creates exactly three tasks titled
`"milk"`, `"eggs"`, `"bread"`. -/
theorem chat_add_comma_list (now : Nat) (st : St) :
    (∃ ts, (chat "add milk, eggs, bread" now st).1 = .added ts ∧
       ts.map Task.title = ["milk", "eggs", "bread"]) ∧
    List.Perm ((chat "add milk, eggs, bread" now st).2.tasks.map Task.title)
      (st.tasks.map Task.title ++ ["milk", "eggs", "bread"]) := by
  have hchat : chat "add milk, eggs, bread" now st
      = (.added ((["milk".data, "eggs".data, "bread".data]).foldl (addStep now) ([], st)).1,
         renumber_short_ids
           ((["milk".data, "eggs".data, "bread".data]).foldl (addStep now) ([], st)).2) := rfl
  obtain ⟨hresp, hstore⟩ :=
    addFold_titles now ["milk".data, "eggs".data, "bread".data] ([], st)
  constructor
  · refine ⟨_, by rw [hchat], ?_⟩
    rw [hresp]
    rfl
  · rw [hchat]
    refine List.Perm.trans (renumber_titles_perm _) ?_
    rw [hstore]
    exact List.Perm.refl _


/-! ## Claim C7: "complete 2-4" marks exactly the short ids 2, 3, 4 -/

lemma mapIf_of_not_mem (sid now : Nat) (ts : List Task)
    (h : sid ∉ ts.map Task.short_id) :
    ts.map (fun t => if t.short_id = sid
                     then { t with completed := true, updated_at := now } else t) = ts := by
  induction ts with
  | nil => rfl
  | cons t ts ih =>
    simp only [List.map_cons, List.mem_cons, not_or] at h ⊢
    rw [if_neg (fun hc => h.1 hc.symm), ih h.2]

lemma markShort_cons_ne (sid now : Nat) (t : Task) (ts : List Task)
    (h : t.short_id ≠ sid) :
    markShort sid now (t :: ts)
      = (markShort sid now ts).map (fun p => (t :: p.1, p.2)) := by
  unfold markShort
  rw [find_task_index_by_short, if_neg h]
  cases hf : find_task_index_by_short sid ts with
  | none => rfl
  | some j =>
    dsimp only [Option.map]
    rw [List.getElem?_cons_succ]
    cases hg : ts[j]? with
    | none => rfl
    | some x => rfl

lemma markShort_eq_map (sid now : Nat) (ts : List Task)
    (hnd : (ts.map Task.short_id).Nodup) (hmem : sid ∈ ts.map Task.short_id) :
    ∃ u, markShort sid now ts
      = some (ts.map (fun t => if t.short_id = sid
                               then { t with completed := true, updated_at := now } else t),
              u) := by
  induction ts with
  | nil => simp at hmem
  | cons t ts ih =>
    simp only [List.map_cons, List.nodup_cons] at hnd
    by_cases h : t.short_id = sid
    · refine ⟨{ t with completed := true, updated_at := now }, ?_⟩
      unfold markShort
      rw [find_task_index_by_short, if_pos h]
      dsimp only
      have htail : ts.map (fun t => if t.short_id = sid
          then { t with completed := true, updated_at := now } else t) = ts :=
        mapIf_of_not_mem sid now ts (by rw [← h]; exact hnd.1)
      rw [List.map_cons, if_pos h, htail, List.getElem?_cons_zero]
      rfl
    · have hmem' : sid ∈ ts.map Task.short_id := by
        rcases List.mem_cons.mp hmem with h1 | h1
        · exact absurd h1.symm h
        · exact h1
      obtain ⟨u, hu⟩ := ih hnd.2 hmem'
      refine ⟨u, ?_⟩
      rw [markShort_cons_ne sid now t ts h, hu]
      dsimp only [Option.map]
      rw [List.map_cons, if_neg h]

lemma markIds_eq_map (now : Nat) (ids : List Nat) (ts : List Task)
    (hnd : (ts.map Task.short_id).Nodup)
    (hmem : ∀ sid ∈ ids, sid ∈ ts.map Task.short_id) :
    ∃ up, markIds ids now ts
      = (ts.map (fun t => if t.short_id ∈ ids
                          then { t with completed := true, updated_at := now } else t),
         up, []) := by
  induction ids generalizing ts with
  | nil =>
    refine ⟨[], ?_⟩
    rw [markIds]
    simp
  | cons sid rest ih =>
    obtain ⟨u, hu⟩ := markShort_eq_map sid now ts hnd (hmem sid (List.mem_cons_self sid rest))
    have hshorts : (ts.map (fun t => if t.short_id = sid
        then { t with completed := true, updated_at := now } else t)).map Task.short_id
          = ts.map Task.short_id :=
      map_short_map _ (fun t => by by_cases hc : t.short_id = sid <;> simp [hc]) ts
    obtain ⟨up, hup⟩ := ih
      (ts.map (fun t => if t.short_id = sid
               then { t with completed := true, updated_at := now } else t))
      (by rw [hshorts]; exact hnd)
      (by intro x hx; rw [hshorts]; exact hmem x (List.mem_cons_of_mem sid hx))
    refine ⟨u :: up, ?_⟩
    rw [markIds, hu]
    dsimp only
    rw [hup, List.map_map]
    have hfun : ∀ t : Task,
        (fun t => if t.short_id ∈ rest
                  then { t with completed := true, updated_at := now } else t)
          ((fun t => if t.short_id = sid
                     then { t with completed := true, updated_at := now } else t) t)
        = (fun t => if t.short_id ∈ sid :: rest
                    then { t with completed := true, updated_at := now } else t) t := by
      intro t
      by_cases h1 : t.short_id = sid
      · simp only [if_pos h1]
        have hm : t.short_id ∈ sid :: rest := by rw [h1]; exact List.mem_cons_self sid rest
        simp only [if_pos hm]
        by_cases h2 : sid ∈ rest
        · simp [h1, h2]
        · simp [h1, h2]
      · simp only [if_neg h1]
        by_cases h2 : t.short_id ∈ rest
        · have hm : t.short_id ∈ sid :: rest := List.mem_cons_of_mem sid h2
          simp only [if_pos h2, if_pos hm]
        · have hm : t.short_id ∉ sid :: rest := by
            intro hc
            rcases List.mem_cons.mp hc with hc1 | hc2
            · exact h1 hc1
            · exact h2 hc2
          simp only [if_neg h2, if_neg hm]
    rw [show ((fun t => if t.short_id ∈ rest
            then { t with completed := true, updated_at := now } else t)
          ∘ (fun t => if t.short_id = sid
             then { t with completed := true, updated_at := now } else t))
        = (fun t : Task => if t.short_id ∈ sid :: rest
           then { t with completed := true, updated_at := now } else t)
      from funext hfun]

/-- C7.  `POST /v1/chat` with `"complete 2-4"` on a store whose (duplicate
free) short ids include 2, 3 and 4: the inclusive range is expanded, exactly
the tasks with those short ids are marked complete (with `updated_at`
refreshed), every other task is untouched, and the response reports the id
set `[2,3,4]` with an empty not-found list. -/
theorem chat_complete_range (now : Nat) (st : St)
    (hnd : (st.tasks.map Task.short_id).Nodup)
    (h2 : 2 ∈ st.tasks.map Task.short_id)
    (h3 : 3 ∈ st.tasks.map Task.short_id)
    (h4 : 4 ∈ st.tasks.map Task.short_id) :
    (∃ up, (chat "complete 2-4" now st).1 = .completedIds up [] [2, 3, 4]) ∧
    (chat "complete 2-4" now st).2.tasks
      = st.tasks.map (fun t => if t.short_id ∈ ([2, 3, 4] : List Nat)
                               then { t with completed := true, updated_at := now }
                               else t) := by
  have hchat : chat "complete 2-4" now st
      = (.completedIds (markIds [2, 3, 4] now st.tasks).2.1
           (markIds [2, 3, 4] now st.tasks).2.2 [2, 3, 4],
         { st with tasks := (markIds [2, 3, 4] now st.tasks).1 }) := rfl
  have hmems : ∀ sid ∈ ([2, 3, 4] : List Nat), sid ∈ st.tasks.map Task.short_id := by
    intro sEl hs
    rcases List.mem_cons.mp hs with h | hs
    · rw [h]; exact h2
    rcases List.mem_cons.mp hs with h | hs
    · rw [h]; exact h3
    rcases List.mem_cons.mp hs with h | hs
    · rw [h]; exact h4
    · simp at hs
  obtain ⟨up, hup⟩ := markIds_eq_map now [2, 3, 4] st.tasks hnd hmems
  constructor
  · refine ⟨up, ?_⟩
    rw [hchat, hup]
  · rw [hchat, hup]

/-- A concrete four-task store with short ids 1..4. -/
def rangeSt : St :=
  { tasks :=
      [ { id := 1, short_id := 1, title := "a", description := "", due_date := none,
          completed := false, created_at := 1, updated_at := 1 },
        { id := 2, short_id := 2, title := "b", description := "", due_date := none,
          completed := false, created_at := 2, updated_at := 2 },
        { id := 3, short_id := 3, title := "c", description := "", due_date := none,
          completed := false, created_at := 3, updated_at := 3 },
        { id := 4, short_id := 4, title := "d", description := "", due_date := none,
          completed := false, created_at := 4, updated_at := 4 } ],
    nextShortId := 5, undo := [], nextTok := 1, nextUuid := 5 }

/-- Witness for C7 on `rangeSt`. -/
theorem chat_complete_range_witness :
    (∃ up, (chat "complete 2-4" 99 rangeSt).1 = .completedIds up [] [2, 3, 4]) ∧
    (chat "complete 2-4" 99 rangeSt).2.tasks
      = rangeSt.tasks.map (fun t => if t.short_id ∈ ([2, 3, 4] : List Nat)
                                    then { t with completed := true, updated_at := 99 }
                                    else t) :=
  chat_complete_range 99 rangeSt (by decide) (by decide) (by decide) (by decide)

/-! ## Claim C8: ambiguous name references answer with choices, no mutation -/

lemma chatRest_disambig (text : Chars) (now : Nat) (st : St) (isDel : Bool) (name : Chars)
    (a b : Task) (rest : List Task)
    (hq : chatNameQueryRest text = some (isDel, name))
    (hms : nameMatches name st.tasks = a :: b :: rest) :
    chatRest text now st
      = (.choices isDel (String.mk name)
          ((a :: b :: rest).map (fun t => (t.short_id, t.title))), st) := by
  unfold chatRest
  unfold chatNameQueryRest at hq
  cases hr : matchVerbBody removeVerbs text with
  | some p =>
    obtain ⟨v, body⟩ := p
    rw [hr] at hq
    dsimp only at hq
    dsimp only
    by_cases hall : anyWordCI ["all", "every", "everything"] (trimWs body) = true
    · rw [if_pos hall] at hq; exact absurd hq (by simp)
    · rw [if_neg hall] at hq
      cases hn : numericRef (trimWs body) with
      | some sid => rw [hn] at hq; exact absurd hq (by simp)
      | none =>
        rw [hn] at hq
        dsimp only at hq
        simp only [Option.some.injEq, Prod.mk.injEq] at hq
        obtain ⟨hdel, hname⟩ := hq
        unfold execRemove
        rw [if_neg hall, hn]
        dsimp only
        rw [hname, hms]
        dsimp only
        rw [hdel]
  | none =>
    rw [hr] at hq
    dsimp only at hq
    dsimp only
    cases hc : matchComplete text with
    | none => rw [hc] at hq; exact absurd hq (by simp)
    | some target =>
      rw [hc] at hq
      dsimp only at hq
      dsimp only
      by_cases hall : anyWordCI ["all"] target = true
      · rw [if_pos hall] at hq; exact absurd hq (by simp)
      · rw [if_neg hall] at hq
        cases hi : idsOf target with
        | cons x xs => rw [hi] at hq; exact absurd hq (by simp)
        | nil =>
          rw [hi] at hq
          dsimp only at hq
          simp only [Option.some.injEq, Prod.mk.injEq] at hq
          obtain ⟨hdel, hname⟩ := hq
          unfold execComplete
          rw [if_neg hall, hi]
          dsimp only
          rw [hname, hms]
          dsimp only
          rw [hdel]

/-- C8.  Whenever the chat cascade reaches a fuzzy-name branch (delete or
complete) — captured by `chatNameQuery` — and the case-insensitive
title+description substring match finds two or more tasks, the response is
the disambiguation payload listing each candidate's `short_id` and title,
and the store is returned unchanged: no task is created, deleted or
modified.  The statement is scoped by `asciiEmbeddable` to the character
domain on which the embedded matchers coincide with Python's Unicode-aware
`str.lower`, `\w` and `\s` (Python folds the full Unicode tables, so on a
message or store containing e.g. `Ö` the embedding and the source could
part ways); within that domain the parsing — including messages with
embedded newlines, which `.` and `$` handle exactly as the source's
regexes do — is character-exact. -/
theorem chat_name_disambiguation (msg : String) (now : Nat) (st : St)
    (isDel : Bool) (name : Chars) (a b : Task) (rest : List Task)
    (hmsgA : msg.data.all asciiEmbeddable = true)
    (hstA : ∀ t ∈ st.tasks, t.title.data.all asciiEmbeddable = true ∧
      t.description.data.all asciiEmbeddable = true)
    (hq : chatNameQuery (trimWs msg.data) = some (isDel, name))
    (hms : nameMatches name st.tasks = a :: b :: rest) :
    chat msg now st
      = (.choices isDel (String.mk name)
          ((a :: b :: rest).map (fun t => (t.short_id, t.title))), st) := by
  have hne : ¬ trimWs msg.data = [] := by
    intro h0
    rw [h0] at hq
    have hnil : chatNameQuery ([] : Chars) = none := rfl
    rw [hnil] at hq
    exact absurd hq (by simp)
  unfold chat
  rw [if_neg hne]
  unfold chatNameQuery at hq
  cases ha : matchVerbBody addVerbs (trimWs msg.data) with
  | some p =>
    obtain ⟨verb, body⟩ := p
    rw [ha] at hq
    dsimp only at hq
    dsimp only
    by_cases hz : addItems verb body = []
    · rw [if_pos hz] at hq
      have hea : execAdd verb body now st = (none, st) := by
        unfold execAdd
        rw [hz]
      rw [hea]
      dsimp only
      exact chatRest_disambig _ now st isDel name a b rest hq hms
    · rw [if_neg hz] at hq
      exact absurd hq (by simp)
  | none =>
    rw [ha] at hq
    dsimp only
    exact chatRest_disambig _ now st isDel name a b rest hq hms

def milkT1 : Task :=
  { id := 1, short_id := 1, title := "buy milk", description := "", due_date := none,
    completed := false, created_at := 1, updated_at := 1 }

def milkT2 : Task :=
  { id := 2, short_id := 2, title := "milk", description := "", due_date := none,
    completed := false, created_at := 2, updated_at := 2 }

/-- A store with two tasks both matching the name "milk". -/
def twoMilkSt : St :=
  { tasks := [milkT1, milkT2], nextShortId := 3, undo := [], nextTok := 1, nextUuid := 3 }

/-- Witness for C8: "delete milk" on a store with two milk tasks. -/
theorem chat_name_disambiguation_witness :
    chat "delete milk" 7 twoMilkSt
      = (.choices true "milk" [(1, "buy milk"), (2, "milk")], twoMilkSt) :=
  chat_name_disambiguation "delete milk" 7 twoMilkSt true ("milk".data)
    milkT1 milkT2 [] (by decide) (by decide) rfl rfl

/-! ## Claim C9: invalid sort keys fall back to short_id — but only after
stripping ALL leading dashes -/

def tieT1 : Task :=
  { id := 1, short_id := 1, title := "x", description := "", due_date := none,
    completed := false, created_at := 100, updated_at := 100 }

def tieT2 : Task :=
  { id := 2, short_id := 2, title := "y", description := "", due_date := none,
    completed := false, created_at := 100, updated_at := 100 }

/-- Two tasks created in the same second: their `created_at` strings tie. -/
def tieTasks : List Task := [tieT1, tieT2]

/-- C9, counterexample to the claim as stated.  For `sort=--created_at` the
key after removing one optional leading `-` is `-created_at`, which is not
one of the valid keys, so the claim predicts the short_id fallback in the
`-` direction; but the code strips all dashes, sorts by `created_at`
descending, and on a tie Python's stable sort keeps the original order
`[tieT1, tieT2]` while short_id-descending would give `[tieT2, tieT1]`. -/
theorem sort_fallback_cex :
    "--created_at".data.head? = some '-' ∧
    validSortKeys.contains (String.mk ("--created_at".data.drop 1)) = false ∧
    (get_tasks none (some "--created_at") 50 0 tieTasks).1
      ≠ stableSort (sortLe "short_id" true) tieTasks := by decide

/-- C9, amended.  `GET /v1/tasks` with a sort key whose remainder after
stripping ALL leading `-` characters is unknown does not fail: it behaves
exactly as sorting by `short_id`, descending when the parameter starts with
`-` and ascending otherwise — the same fallback as an omitted sort. -/
theorem sort_key_fallback (sortS : String) (cq : Option String) (lim off : Int)
    (ts : List Task)
    (h : validSortKeys.contains (String.mk (sortS.data.dropWhile (fun c => c == '-'))) = false) :
    get_tasks cq (some sortS) lim off ts
      = get_tasks cq (some (if startsWithDash sortS then "-short_id" else "short_id"))
          lim off ts := by
  by_cases hs : startsWithDash sortS = true
  · rw [if_pos hs]
    unfold get_tasks
    dsimp only [Option.getD]
    rw [h, hs]
    rfl
  · have hs' : startsWithDash sortS = false := by
      revert hs
      cases startsWithDash sortS <;> simp
    rw [if_neg hs]
    unfold get_tasks
    dsimp only [Option.getD]
    rw [h, hs']
    rfl

/-- Witness for the amended C9: the unknown key `xyz` behaves as the
ascending short_id sort, and `-xyz` as the descending one. -/
theorem sort_key_fallback_witness :
    get_tasks none (some "-xyz") 50 0 tieTasks
      = get_tasks none (some (if startsWithDash "-xyz" then "-short_id" else "short_id"))
          50 0 tieTasks :=
  sort_key_fallback "-xyz" none 50 0 tieTasks (by decide)

/-! ## Claim C10: PATCH `completed` accepts any JSON value via truthiness -/

/-- C10.  For an existing id, `PATCH /v1/tasks/{id}` sets the task's
`completed` flag to the Python truthiness of whatever JSON value sits under
the `completed` key (`bool(data["completed"])`) and refreshes `updated_at`;
a non-empty string such as `"no"` therefore sets it to `true`.  Only a body
without a `completed` key — including any non-object body — yields 400, and
then the store is untouched. -/
theorem patch_completed_truthiness (tid now : Nat) (st : St) (i : Nat) (t : Task)
    (body : JVal)
    (hfind : find_task_index tid st.tasks = some i)
    (hget : st.tasks[i]? = some t) :
    (∀ v, jlookup "completed" body = some v →
       patch_task tid body now st
         = (.ok { t with completed := pyTruthy v, updated_at := now },
            { st with tasks := st.tasks.set i { t with completed := pyTruthy v, updated_at := now } })) ∧
    (jlookup "completed" body = none →
       patch_task tid body now st = (.error .badRequest, st)) ∧
    pyTruthy (JVal.js "no") = true := by
  refine ⟨?_, ?_, by decide⟩
  · intro v hv
    unfold patch_task
    rw [hfind]
    dsimp only
    rw [hv]
    dsimp only
    rw [hget]
  · intro hv
    unfold patch_task
    rw [hfind]
    dsimp only
    rw [hv]

/-- Witness for C10: patching task 1 of `twoMilkSt` with
`{"completed": "no"}` marks it completed. -/
theorem patch_completed_truthiness_witness :
    patch_task 1 (JVal.jobj [("completed", JVal.js "no")]) 42 twoMilkSt
      = (.ok { milkT1 with completed := true, updated_at := 42 },
         { twoMilkSt with tasks := twoMilkSt.tasks.set 0 { milkT1 with completed := true, updated_at := 42 } }) :=
  (patch_completed_truthiness 1 42 twoMilkSt 0 milkT1
      (JVal.jobj [("completed", JVal.js "no")]) rfl rfl).1 (JVal.js "no") rfl

end TaskApp
